import Mathlib

/-!
Verification development for the FoodAdvisor application (`src/app.py`).

The app's logic is modelled shallowly:
* Python strings are `List Char`; `str.strip` is `pystrip`, `str.replace`
  is `pyReplace`, `str.find`/`str.rfind` are `findFirst`/`findLast`
  (returning `Option Nat` instead of `-1`).
* JSON values (`json.loads` results) are the inductive `Json`; numbers are
  kept exactly as decimal mantissa/exponent pairs `m * 10 ^ e` (CPython uses
  binary floats; all numeric behaviour exercised here is exact in decimal,
  so the decimal model agrees with the source on every input considered).
* `json.loads` is `json_loads`, a fuel-indexed recursive-descent parser
  following CPython's `json` grammar (strict mode; the `NaN/Infinity`
  extension is not modelled, no claim concerns it).
* Fallible Python code (may raise) returns `Option`; `None` models a raised
  exception caught by the caller or propagated.
-/

/-- Whitespace for Python `str.strip()` (ASCII part; the app only ever meets
ASCII whitespace). -/
def pyws (c : Char) : Bool :=
  c = ' ' || c = '\t' || c = '\n' || c = '\r' || c = '\x0b' || c = '\x0c'

/-- JSON inter-token whitespace (per RFC / CPython `json`). -/
def jsonws (c : Char) : Bool :=
  c = ' ' || c = '\t' || c = '\n' || c = '\r'

/-- Python `str.lstrip()`. -/
def lstrip (l : List Char) : List Char := l.dropWhile pyws

/-- Python `str.rstrip()`. -/
def rstrip (l : List Char) : List Char := (l.reverse.dropWhile pyws).reverse

/-- Python `str.strip()`. -/
def pystrip (l : List Char) : List Char := rstrip (lstrip l)

/-- Scanner for Python `str.replace(pat, repl)`.  The second argument is
the number of already-matched characters still to swallow; at `0` the
scanner looks for `pat` at the current position, emits `repl` on a match
and skips the matched characters.  This realises Python's non-overlapping
left-to-right replacement. -/
def pyReplaceGo (pat repl : List Char) : List Char → Nat → List Char
  | [], _ => []
  | _ :: t, k + 1 => pyReplaceGo pat repl t k
  | c :: t, 0 =>
    if pat ≠ [] ∧ pat.isPrefixOf (c :: t) then
      repl ++ pyReplaceGo pat repl t (pat.length - 1)
    else
      c :: pyReplaceGo pat repl t 0

/-- Python `str.replace(pat, repl)` (an empty `pat` is treated as matching
nowhere; all call sites have nonempty patterns). -/
def pyReplace (pat repl l : List Char) : List Char := pyReplaceGo pat repl l 0

/-- Python `str.find(c)` for a single character, as `Option Nat`
(`none` models `-1`). -/
def findFirst (c : Char) : List Char → Option Nat
  | [] => none
  | x :: t => if x = c then some 0 else (findFirst c t).map (· + 1)

/-- Python `str.rfind(c)` for a single character, as `Option Nat`. -/
def findLast (c : Char) (l : List Char) : Option Nat :=
  (findFirst c l.reverse).map (fun i => l.length - 1 - i)

/-- Python's `in` test for substrings. -/
def containsSub (pat : List Char) : List Char → Bool
  | [] => pat.isEmpty
  | c :: t => pat.isPrefixOf (c :: t) || containsSub pat t

/-- JSON values as decoded by `json.loads`.  Objects are kept as ordered
key/value lists (CPython builds a `dict`, last duplicate key winning;
lookups below use last-wins semantics to match).  `num m e` denotes the
decimal value `m * 10 ^ e`; integer literals have `e = 0`. -/
inductive Json where
  | null : Json
  | bool (b : Bool) : Json
  | num (m : Int) (e : Int) : Json
  | str (s : List Char) : Json
  | arr (xs : List Json) : Json
  | obj (kvs : List (List Char × Json)) : Json

/-- The character for one decimal digit. -/
def digitChar (n : Nat) : Char := Char.ofNat (48 + n)

/-- Fuelled digit emitter (most significant digit first); any fuel above
the digit count behaves identically. -/
def natToDigitsGo : Nat → Nat → List Char
  | 0, _ => []
  | fuel + 1, n =>
    if n < 10 then [digitChar n]
    else natToDigitsGo fuel (n / 10) ++ [digitChar (n % 10)]

/-- Decimal digits of a natural number, most significant first. -/
def natToDigits (n : Nat) : List Char := natToDigitsGo (n + 1) n

/-- Decimal rendering of an integer. -/
def intToDigits (i : Int) : List Char :=
  if i < 0 then '-' :: natToDigits i.natAbs else natToDigits i.natAbs

/-- Lower-case hexadecimal digit. -/
def hexDigitChar (n : Nat) : Char :=
  ("0123456789abcdef".data).getD n '0'

/-- JSON string escaping for one character (quote, backslash and control
characters escaped, everything else emitted raw — a valid serialization
accepted by `json.loads`). -/
def escapeChar (c : Char) : List Char :=
  if c = '"' then ['\\', '"']
  else if c = '\\' then ['\\', '\\']
  else if c.toNat < 32 then
    ['\\', 'u', '0', '0', hexDigitChar (c.toNat / 16), hexDigitChar (c.toNat % 16)]
  else [c]

/-- JSON string-body escaping. -/
def escStr (s : List Char) : List Char := s.flatMap escapeChar

mutual

/-- Compact serialization of a `Json` value (no inter-token whitespace);
numbers `m * 10 ^ e` are emitted as `<m>` when `e = 0` and `<m>e<e>`
otherwise, both valid JSON number literals. -/
def serJson : Json → List Char
  | .null => "null".data
  | .bool true => "true".data
  | .bool false => "false".data
  | .num m e => if e = 0 then intToDigits m else intToDigits m ++ 'e' :: intToDigits e
  | .str s => '"' :: escStr s ++ ['"']
  | .arr xs => '[' :: serItems xs ++ [']']
  | .obj kvs => '{' :: serMembers kvs ++ ['}']

/-- Serialization of array elements, comma separated. -/
def serItems : List Json → List Char
  | [] => []
  | [x] => serJson x
  | x :: y :: t => serJson x ++ ',' :: serItems (y :: t)

/-- Serialization of object members, comma separated. -/
def serMembers : List (List Char × Json) → List Char
  | [] => []
  | [(k, v)] => '"' :: escStr k ++ '"' :: ':' :: serJson v
  | (k, v) :: m :: t => ('"' :: escStr k ++ '"' :: ':' :: serJson v) ++ ',' :: serMembers (m :: t)

end

mutual

/-- Fuel needed by `parseVal` to consume the serialization of a value. -/
def sizeJ : Json → Nat
  | .null | .bool _ | .num _ _ => 1
  | .str s => s.length + 2
  | .arr [] => 1
  | .arr (x :: t) => 1 + sizeItems (x :: t)
  | .obj [] => 1
  | .obj (m :: t) => 1 + sizeMembers (m :: t)

/-- Fuel needed by `parseArrItems`. -/
def sizeItems : List Json → Nat
  | [] => 1
  | x :: t => 1 + max (sizeJ x) (sizeItems t)

/-- Fuel needed by `parseObjItems`. -/
def sizeMembers : List (List Char × Json) → Nat
  | [] => 1
  | (k, v) :: t => 1 + max (k.length + 1) (max (sizeJ v) (sizeMembers t))

end

/-- Fuel needed by `parseStrBody` for a string body. -/
def sizeStr (s : List Char) : Nat := s.length + 1

/-- Skip JSON inter-token whitespace. -/
def skipWs (l : List Char) : List Char := l.dropWhile jsonws

/-- Value of one hexadecimal digit. -/
def hexVal (c : Char) : Option Nat :=
  if '0' ≤ c ∧ c ≤ '9' then some (c.toNat - 48)
  else if 'a' ≤ c ∧ c ≤ 'f' then some (c.toNat - 87)
  else if 'A' ≤ c ∧ c ≤ 'F' then some (c.toNat - 55)
  else none

/-- Value of a four-hex-digit escape. -/
def decodeHex4 (a b c d : Char) : Option Nat := do
  let x ← hexVal a; let y ← hexVal b; let z ← hexVal c; let w ← hexVal d
  pure (((x * 16 + y) * 16 + z) * 16 + w)

/-- The character with the given code point, when it is a valid scalar
value.  (CPython admits lone surrogates inside decoded strings; Lean's
`Char` cannot represent them, so the model rejects them — no claim
involves such input.) -/
def charOfCode (n : Nat) : Option Char :=
  if h : n.isValidChar then some (Char.ofNatAux n h) else none

/-- Decode one backslash escape (the backslash already consumed), per
CPython `json`: the named escapes, `\/`, and `\uXXXX` with surrogate-pair
combination. -/
def parseEscape : List Char → Option (Char × List Char)
  | '"' :: r => some ('"', r)
  | '\\' :: r => some ('\\', r)
  | '/' :: r => some ('/', r)
  | 'b' :: r => some ('\x08', r)
  | 'f' :: r => some ('\x0c', r)
  | 'n' :: r => some ('\n', r)
  | 'r' :: r => some ('\r', r)
  | 't' :: r => some ('\t', r)
  | 'u' :: a :: b :: c :: d :: r => do
    let n ← decodeHex4 a b c d
    if n < 0xD800 ∨ 0xDFFF < n then do
      let ch ← charOfCode n
      pure (ch, r)
    else if n ≤ 0xDBFF then
      match r with
      | '\\' :: 'u' :: a2 :: b2 :: c2 :: d2 :: r2 => do
        let m ← decodeHex4 a2 b2 c2 d2
        if 0xDC00 ≤ m ∧ m ≤ 0xDFFF then do
          let ch ← charOfCode (0x10000 + (n - 0xD800) * 0x400 + (m - 0xDC00))
          pure (ch, r2)
        else none
      | _ => none
    else none
  | _ => none

/-- Numeric value of a digit character. -/
def digitVal (c : Char) : Nat := c.toNat - 48

/-- Split a run of leading decimal digits. -/
def takeDigits (l : List Char) : List Char × List Char :=
  (l.takeWhile Char.isDigit, l.dropWhile Char.isDigit)

/-- Value of a digit string, most significant first. -/
def digitsToNat (ds : List Char) : Nat :=
  ds.foldl (fun a c => 10 * a + digitVal c) 0

/-- Integer part of a JSON number: `0` or `[1-9][0-9]*` (leading zeros
stop the match, as in CPython's NUMBER_RE). -/
def parseIntDigits : List Char → Option (List Char × List Char)
  | [] => none
  | c :: r =>
    if c = '0' then some (['0'], r)
    else if c.isDigit then some (c :: (takeDigits r).1, (takeDigits r).2)
    else none

/-- Optional fraction part `(\.\d+)?`: consumed only when a digit follows
the dot, otherwise nothing is consumed. -/
def parseFrac : List Char → Option (List Char) × List Char
  | [] => (none, [])
  | c :: r =>
    if c = '.' then
      if (takeDigits r).1 = [] then (none, c :: r)
      else (some (takeDigits r).1, (takeDigits r).2)
    else (none, c :: r)

/-- Optional exponent part `([eE][-+]?\d+)?`: consumed only when at least
one digit follows, otherwise nothing is consumed. -/
def parseExp : List Char → Option Int × List Char
  | [] => (none, [])
  | c :: r =>
    if c = 'e' ∨ c = 'E' then
      match r with
      | [] => (none, c :: r)
      | s :: r₂ =>
        if s = '-' then
          if (takeDigits r₂).1 = [] then (none, c :: r)
          else (some (-(digitsToNat (takeDigits r₂).1 : Int)), (takeDigits r₂).2)
        else if s = '+' then
          if (takeDigits r₂).1 = [] then (none, c :: r)
          else (some ((digitsToNat (takeDigits r₂).1 : Int)), (takeDigits r₂).2)
        else
          if (takeDigits r).1 = [] then (none, c :: r)
          else (some ((digitsToNat (takeDigits r).1 : Int)), (takeDigits r).2)
    else (none, c :: r)

/-- JSON number literal after the optional sign, returned as
mantissa/decimal-exponent. -/
def parseNumCore (sgn : Bool) (l₁ : List Char) : Option ((Int × Int) × List Char) :=
  match parseIntDigits l₁ with
  | none => none
  | some (ids, r₁) =>
    let (fr, r₂) := parseFrac r₁
    let (ex, r₃) := parseExp r₂
    let fds := fr.getD []
    let mNat := digitsToNat (ids ++ fds)
    let m : Int := if sgn then -(mNat : Int) else (mNat : Int)
    some ((m, (ex.getD 0) - fds.length), r₃)

/-- JSON number literal, returned as mantissa/decimal-exponent. -/
def parseNum : List Char → Option ((Int × Int) × List Char)
  | [] => none
  | c :: r => if c = '-' then parseNumCore true r else parseNumCore false (c :: r)

mutual

/-- One JSON value starting at a non-whitespace position; follows CPython
`json.scanner` (strict mode; `NaN`/`Infinity` constants not modelled).
Fuel decreases at each nesting step; `input length + 1` is always enough
for texts this development feeds it. -/
def parseVal : Nat → List Char → Option (Json × List Char)
  | 0, _ => none
  | _ + 1, [] => none
  | fuel + 1, c :: t =>
    if c = '{' then
      match skipWs t with
      | '}' :: r => some (.obj [], r)
      | t' => (parseObjItems fuel t').map (fun (kvs, r) => (.obj kvs, r))
    else if c = '[' then
      match skipWs t with
      | ']' :: r => some (.arr [], r)
      | t' => (parseArrItems fuel t').map (fun (xs, r) => (.arr xs, r))
    else if c = '"' then (parseStrBody fuel t).map (fun (s, r) => (.str s, r))
    else if c = 'n' then
      if "ull".data.isPrefixOf t then some (.null, t.drop 3) else none
    else if c = 't' then
      if "rue".data.isPrefixOf t then some (.bool true, t.drop 3) else none
    else if c = 'f' then
      if "alse".data.isPrefixOf t then some (.bool false, t.drop 4) else none
    else if c = '-' ∨ c.isDigit then
      (parseNum (c :: t)).map (fun ((m, e), r) => (.num m e, r))
    else none

/-- String body after the opening quote. -/
def parseStrBody : Nat → List Char → Option (List Char × List Char)
  | 0, _ => none
  | _ + 1, [] => none
  | fuel + 1, c :: r =>
    if c = '"' then some ([], r)
    else if c = '\\' then
      match parseEscape r with
      | none => none
      | some (ch, r') => (parseStrBody fuel r').map (fun (s, t) => (ch :: s, t))
    else if 32 ≤ c.toNat then (parseStrBody fuel r).map (fun (s, t) => (c :: s, t))
    else none

/-- Array elements after `[` (nonempty case), with separating commas and
closing bracket. -/
def parseArrItems : Nat → List Char → Option (List Json × List Char)
  | 0, _ => none
  | fuel + 1, l =>
    match parseVal fuel l with
    | none => none
    | some (x, r₁) =>
      match skipWs r₁ with
      | ',' :: r₂ => (parseArrItems fuel (skipWs r₂)).map (fun (xs, r) => (x :: xs, r))
      | ']' :: r₂ => some ([x], r₂)
      | _ => none

/-- Object members after `{` (nonempty case). -/
def parseObjItems : Nat → List Char → Option (List (List Char × Json) × List Char)
  | 0, _ => none
  | fuel + 1, l =>
    match l with
    | '"' :: t =>
      (match parseStrBody fuel t with
       | none => none
       | some (k, r₁) =>
         match skipWs r₁ with
         | ':' :: r₂ =>
           (match parseVal fuel (skipWs r₂) with
            | none => none
            | some (v, r₃) =>
              match skipWs r₃ with
              | ',' :: r₄ => (parseObjItems fuel (skipWs r₄)).map (fun (kvs, r) => ((k, v) :: kvs, r))
              | '}' :: r₄ => some ([(k, v)], r₄)
              | _ => none)
         | _ => none)
    | _ => none

end

/-- `json.loads`: optional surrounding whitespace, one value, and the
"Extra data" check that nothing but whitespace follows. -/
def json_loads (l : List Char) : Option Json :=
  match parseVal (l.length + 1) (skipWs l) with
  | none => none
  | some (j, r) => if skipWs r = [] then some j else none

/-- Lines 118–119 of `app.py`: `raw_text.strip()` followed by
`.replace("```json", "").replace("```", "")`. -/
def cleanText (raw : List Char) : List Char :=
  pyReplace "```".data [] (pyReplace "```json".data [] (pystrip raw))

/-- `safe_json_parse` (lines 116–128 of `app.py`): strip, remove fence
markers, slice from the first `{` to the last `}`, and `json.loads` the
slice.  Any decode failure or missing bracket yields `none` (the Python
code emits a warning and returns `None`; exceptions never escape). -/
def safe_json_parse (raw : List Char) : Option Json :=
  let t := cleanText raw
  match findFirst '{' t, findLast '}' t with
  | some first, some last => json_loads ((t.drop first).take (last + 1 - first))
  | _, _ => none

/-- The profile dictionary passed to `build_prompt` (`extra_user_info`).
Each field is the `str()` rendering of the stored value when the key is
present, `none` when omitted; `build_prompt` only ever consumes the values
through f-string interpolation, so this captures the dict exactly. -/
structure Profile where
  age : Option (List Char) := none
  gender : Option (List Char) := none
  height_cm : Option (List Char) := none
  weight_kg : Option (List Char) := none
  activity_level : Option (List Char) := none
  dietary_pref : Option (List Char) := none
  allergies : Option (List Char) := none

/-- The `user_context` f-string of `build_prompt` (lines 32–40), with
`dict.get(key, default)` as `Option.getD`. -/
def userContext (p : Profile) : List Char :=
  "User: ".data ++ p.age.getD "?".data ++
  " yrs, ".data ++ p.gender.getD "unspecified".data ++
  ", height ".data ++ p.height_cm.getD "?".data ++
  " cm, weight ".data ++ p.weight_kg.getD "?".data ++
  " kg, activity: ".data ++ p.activity_level.getD "unspecified".data ++
  ", dietary_preferences: ".data ++ p.dietary_pref.getD "none".data ++
  ", allergies: ".data ++ p.allergies.getD "none".data ++ ".".data

/-- Fixed prompt text before the interpolated dish name. -/
def promptHead : String := "You are a nutrition expert. Analyze the dish \""

/-- Fixed prompt text between the dish name and the schema template. -/
def promptMid1 : String :=
  "\" and return **valid JSON only**.\n\nThe JSON must follow exactly this format:\n"

/-- The literal JSON schema template of the prompt (lines 46–79; the
f-string's doubled braces render as single braces). -/
def schemaTemplate : String :=
  "\x7b\n  \"dish_name\": string,\n  \"ingredients\": [string],\n  \"estimated_serving_g\": number,\n  \"calories_kcal\": number,\n  \"macros\": \x7b\n    \"carbs_g\": number,\n    \"protein_g\": number,\n    \"fat_g\": number,\n    \"fiber_g\": number\n  \x7d,\n  \"micros\": \x7b\n    \"vitamin_a_ug\": number,\n    \"vitamin_c_mg\": number,\n    \"calcium_mg\": number,\n    \"iron_mg\": number,\n    \"sodium_mg\": number\n  \x7d,\n  \"allergens\": [string],\n  \"confidence\": \x7b\n    \"overall\": number,\n    \"calories\": number,\n    \"ingredients\": number\n  \x7d,\n  \"portion_recommendation\": \x7b\n    \"amount_g\": number,\n    \"frequency\": string\n  \x7d,\n  \"healthiness_verdict\": \x7b\n    \"rating\": string,\n    \"explanation\": string\n  \x7d,\n  \"advice\": [string]\n\x7d"

/-- Fixed prompt text between the schema template and the user context. -/
def promptMid2 : String := "\n\nUser context:\n"

/-- Fixed prompt text between the user context and the final directive. -/
def promptMid3 : String :=
  "\n\nDish context: include nutrition, portion, allergens, and health advice.\n"

/-- The required-JSON-only directive (line 85). -/
def jsonDirective : String :=
  "Return only valid JSON — no markdown, no code fences, no explanation outside JSON."

/-- The full prompt f-string of lines 42–86, before `.strip()`: a leading
newline, the fixed chunks with `dish_name` and `user_context`
interpolated, and a trailing newline. -/
def promptRaw (dish : List Char) (p : Profile) : List Char :=
  '\n' :: (promptHead.data ++ dish ++ promptMid1.data ++ schemaTemplate.data ++
    promptMid2.data ++ userContext p ++ promptMid3.data ++ jsonDirective.data) ++ ['\n']

/-- `build_prompt` (lines 31–87): the prompt f-string, stripped. -/
def build_prompt (dish : List Char) (p : Profile) : List Char :=
  pystrip (promptRaw dish p)

/-- Outcome of pressing Analyze (lines 171–193): either the request is
rejected with the no-input warning before any model call, or the model is
invoked with the built prompt (plus optional notes line) and optional
image. -/
inductive AnalyzeAction where
  | warnNoInput : AnalyzeAction
  | callModel (prompt : List Char) (withImage : Bool) : AnalyzeAction

/-- The analyze handler's dispatch (lines 171–193): `if not (dish_name or
uploaded_file)` warns and stops; otherwise the prompt is built, a
non-empty stripped notes text is appended, and the model is called. -/
def analyzeAction (dish : List Char) (hasImage : Bool) (notes : List Char)
    (p : Profile) : AnalyzeAction :=
  if dish.isEmpty && !hasImage then .warnNoInput
  else
    .callModel
      (build_prompt dish p ++
        (if (pystrip notes).isEmpty then []
         else "\nAdditional context: ".data ++ pystrip notes))
      hasImage

/-- Last-wins lookup in a decoded object, the Python `dict` view of the
key/value list `json.loads` builds. -/
def lookupLast (kvs : List (List Char × Json)) (k : List Char) : Option Json :=
  ((kvs.filter (fun kv => kv.1 == k)).getLast?).map Prod.snd

/-- Python `dict.get(k, d)`. -/
def pyGetD (kvs : List (List Char × Json)) (k : List Char) (d : Json) : Json :=
  (lookupLast kvs k).getD d

/-- Key-presence test for a decoded object. -/
def hasKey (kvs : List (List Char × Json)) (k : List Char) : Bool :=
  kvs.any (fun kv => kv.1 == k)

/-- Python truthiness of a decoded JSON value (`if x:`). -/
def pyTruthy : Json → Bool
  | .null => false
  | .bool b => b
  | .num m _ => !(m == 0)
  | .str s => !s.isEmpty
  | .arr xs => !xs.isEmpty
  | .obj kvs => !kvs.isEmpty

/-- `str()` of a float `m * 10 ^ e` in the exact decimal model
(`<int>.<frac>` / `<int>.0`; CPython's shortest-repr and scientific
notation for extreme magnitudes are not reproduced — no claim needs
them). -/
def floatRepr (m e : Int) : List Char :=
  if 0 ≤ e then intToDigits (m * (10 : Int) ^ e.toNat) ++ ".0".data
  else
    let n := e.natAbs
    let a := m.natAbs
    let fd := natToDigits (a % 10 ^ n)
    (if m < 0 then ['-'] else []) ++ natToDigits (a / 10 ^ n) ++
      '.' :: (List.replicate (n - fd.length) '0' ++ fd)

mutual

/-- Python `str()` of a decoded JSON value, as interpolated by the
app's f-strings (`str` verbatim, `int`/`float` decimal, `True/False/None`;
containers via `repr`). -/
def pyStr : Json → List Char
  | .null => "None".data
  | .bool true => "True".data
  | .bool false => "False".data
  | .num m e => if e = 0 then intToDigits m else floatRepr m e
  | .str s => s
  | .arr xs => '[' :: pyReprItems xs ++ [']']
  | .obj kvs => '{' :: pyReprMembers kvs ++ ['}']

/-- Python `repr()` of a value (quotes around strings; quote escaping
inside strings is not reproduced — no claim depends on container
display). -/
def pyRepr : Json → List Char
  | .str s => '\'' :: s ++ ['\'']
  | j => pyStrAux j

/-- `pyStr` on non-string values, to tie the mutual recursion. -/
def pyStrAux : Json → List Char
  | .null => "None".data
  | .bool true => "True".data
  | .bool false => "False".data
  | .num m e => if e = 0 then intToDigits m else floatRepr m e
  | .str s => s
  | .arr xs => '[' :: pyReprItems xs ++ [']']
  | .obj kvs => '{' :: pyReprMembers kvs ++ ['}']

/-- `repr` of list elements, `", "`-separated. -/
def pyReprItems : List Json → List Char
  | [] => []
  | [x] => pyRepr x
  | x :: y :: t => pyRepr x ++ ", ".data ++ pyReprItems (y :: t)

/-- `repr` of dict entries, `", "`-separated. -/
def pyReprMembers : List (List Char × Json) → List Char
  | [] => []
  | [(k, v)] => '\'' :: k ++ '\'' :: ':' :: ' ' :: pyRepr v
  | (k, v) :: m :: t => ('\'' :: k ++ '\'' :: ':' :: ' ' :: pyRepr v) ++ ", ".data ++ pyReprMembers (m :: t)

end

/-- `", ".join(x)` for a decoded value: a list joins its elements when all
are strings (otherwise `TypeError`, modelled `none`); a string joins its
characters. -/
def pyJoin (sep : List Char) : Json → Option (List Char)
  | .arr xs => do
    let ss ← xs.mapM (fun x => match x with | .str s => some s | _ => none)
    pure (List.intercalate sep ss)
  | .str s => some (List.intercalate sep (s.map (fun c => [c])))
  | _ => none

/-- Python `str.capitalize()`: first character upper-cased, the rest
lower-cased. -/
def pyCapitalize : List Char → List Char
  | [] => []
  | c :: t => c.toUpper :: t.map Char.toLower

/-- Round `m / 10 ^ k` half to even (`k > 0`), which is what CPython's
`format(x, ".0f")` computes on the exact decimal values arising here.
(The `-0.x → "-0"` quirk of CPython's formatting is not reproduced; the
app only formats confidences in `[0, 1]`.) -/
def roundHalfEvenScaled (m : Int) (k : Nat) : Int :=
  let d : Int := ((Nat.pow 10 k : Nat) : Int)
  let f := Int.fdiv m d
  let r := m - f * d
  if 2 * r < d then f
  else if d < 2 * r then f + 1
  else if f % 2 = 0 then f else f + 1

/-- `f"{v*100:.0f}"` applied to a decoded confidence value `m * 10 ^ e`:
the exact value times 100 is `m * 10 ^ (e + 2)`, rounded half to even;
non-numbers raise (`none`). -/
def fmtPct : Json → Option (List Char)
  | .num m e =>
    some (intToDigits
      (if 0 ≤ e + 2 then m * ((Nat.pow 10 (e + 2).toNat : Nat) : Int)
       else roundHalfEvenScaled m (-(e + 2)).toNat))
  | _ => none

/-- Everything the success branch of the analyze handler displays
(lines 196–250).  `Option` fields are `none` exactly when the Python code
would raise there (wrong-shaped present field); absent fields take the
code's explicit defaults. -/
structure RenderOut where
  dishLine : List Char
  ingredientsLine : Option (List Char)
  servingMetric : List Char
  caloriesMetric : List Char
  macroLines : Option (List (List Char))
  microLines : Option (List (List Char))
  allergensWarn : Bool
  allergensLine : Option (List Char)
  progressValue : Option Json
  confCaption : Option (List Char)
  portionLine : Option (List Char)
  verdictLine : Option (List Char)
  adviceLines : Option (List (List Char))
  verdict2Line : Option (List Char)

/-- The structured-rendering branch of the analyze handler, field by field
from lines 199–250 of `app.py`. -/
def render (kvs : List (List Char × Json)) : RenderOut :=
  let macros := pyGetD kvs "macros".data (.obj [])
  let micros := pyGetD kvs "micros".data (.obj [])
  let allerg := pyGetD kvs "allergens".data .null
  let conf := pyGetD kvs "confidence".data (.obj [])
  let portion := pyGetD kvs "portion_recommendation".data (.obj [])
  let verdict := pyGetD kvs "healthiness_verdict".data (.obj [])
  { dishLine :=
      "### 🍽️ Dish: **".data ++
        pyStr (pyGetD kvs "dish_name".data (.str "Unknown".data)) ++ "**".data
    ingredientsLine := pyJoin ", ".data (pyGetD kvs "ingredients".data (.arr []))
    servingMetric := pyStr (pyGetD kvs "estimated_serving_g".data (.num 0 0)) ++ " g".data
    caloriesMetric := pyStr (pyGetD kvs "calories_kcal".data (.num 0 0)) ++ " kcal".data
    macroLines :=
      match macros with
      | .obj ms =>
        some (ms.map (fun kv =>
          "**".data ++ pyCapitalize (pyReplace "_g".data [] kv.1) ++
            "**: ".data ++ pyStr kv.2 ++ " g".data))
      | _ => none
    microLines :=
      match micros with
      | .obj ms =>
        some (ms.map (fun kv =>
          let unit := if containsSub "mg".data kv.1 then "mg".data else "µg".data
          let label := pyCapitalize
            (pyReplace "_".data " ".data
              (pyReplace "_ug".data [] (pyReplace "_mg".data [] kv.1)))
          "**".data ++ label ++ "**: ".data ++ pyStr kv.2 ++ ' ' :: unit))
      | _ => none
    allergensWarn := pyTruthy allerg
    allergensLine :=
      if pyTruthy allerg then pyJoin ", ".data allerg else some "None".data
    progressValue :=
      match conf with
      | .obj cs => some (pyGetD cs "overall".data (.num 0 (-1)))
      | _ => none
    confCaption :=
      match conf with
      | .obj cs => do
        let pc ← fmtPct (pyGetD cs "calories".data (.num 0 (-1)))
        let pj ← fmtPct (pyGetD cs "ingredients".data (.num 0 (-1)))
        pure ("Calories confidence: ".data ++ pc ++
          "% | Ingredients confidence: ".data ++ pj ++ "%".data)
      | _ => none
    portionLine :=
      match portion with
      | .obj ps =>
        some ("**".data ++ pyStr (pyGetD ps "amount_g".data (.str "?".data)) ++
          " g** — ".data ++ pyStr (pyGetD ps "frequency".data (.str "No suggestion".data)))
      | _ => none
    verdictLine :=
      match verdict with
      | .obj vs =>
        some ("**".data ++ pyStr (pyGetD vs "rating".data (.str "-".data)) ++
          "** — ".data ++ pyStr (pyGetD vs "explanation".data (.str [])))
      | _ => none
    adviceLines :=
      match pyGetD kvs "advice".data (.arr []) with
      | .arr xs => some (xs.map (fun t => "- ".data ++ pyStr t))
      | _ => none
    verdict2Line :=
      if pyTruthy verdict then
        match verdict with
        | .obj vs =>
          match pyGetD vs "rating".data (.str "—".data) with
          | .str s =>
            some ("**Verdict: ".data ++ s.map Char.toUpper ++ "** — ".data ++
              pyStr (pyGetD vs "explanation".data (.str [])))
          | _ => none
        | _ => none
      else none }

/-- Line 196: `if parsed_json:` — the structured branch is taken iff the
extractor's result is truthy ( `None` and the empty dict are falsy). -/
def renderBranch : Option Json → Bool
  | none => false
  | some j => pyTruthy j

/-- Whether a value is a number literal (whose lexing looks one character
past its end). -/
def isNum : Json → Bool
  | .num _ _ => true
  | _ => false

/-- A list whose head cannot extend a preceding number literal. -/
def numStop : List Char → Bool
  | [] => true
  | c :: _ => !(c = '.' || c = 'e' || c = 'E' || c.isDigit)

/-! ### List/string lemmas -/

theorem dropWhile_append_stop (p : Char → Bool) (a : List Char) {c : Char} (t : List Char)
    (hc : p c = false) : (a ++ c :: t).dropWhile p = a.dropWhile p ++ c :: t := by
  induction a with
  | nil => simp [List.dropWhile_cons, hc]
  | cons x a ih => by_cases hp : p x <;> simp [List.dropWhile_cons, hp, ih]

theorem lstrip_append_stop (a : List Char) {c : Char} (t : List Char) (hc : pyws c = false) :
    lstrip (a ++ c :: t) = lstrip a ++ c :: t :=
  dropWhile_append_stop pyws a t hc

theorem rstrip_append_keep (a : List Char) {c : Char} (b : List Char) (hc : pyws c = false) :
    rstrip ((a ++ [c]) ++ b) = (a ++ [c]) ++ rstrip b := by
  unfold rstrip
  rw [List.reverse_append, List.reverse_append, List.reverse_cons, List.reverse_nil,
    List.nil_append, List.singleton_append,
    dropWhile_append_stop pyws b.reverse a.reverse hc, List.reverse_append]
  simp

theorem pystrip_eq_self {l : List Char} {x y : Char} (hx : l.head? = some x)
    (hwx : pyws x = false) (hy : l.getLast? = some y) (hwy : pyws y = false) :
    pystrip l = l := by
  obtain ⟨t, rfl⟩ : ∃ t, l = x :: t := by
    cases l with
    | nil => simp at hx
    | cons a t => exact ⟨t, by injection hx with h; rw [h]⟩
  have h1 : lstrip (x :: t) = x :: t := by simp [lstrip, List.dropWhile_cons, hwx]
  have h2 : (x :: t).reverse.head? = some y := by rw [List.head?_reverse]; exact hy
  obtain ⟨s, hs⟩ : ∃ s, (x :: t).reverse = y :: s := by
    cases hrev : (x :: t).reverse with
    | nil => rw [hrev] at h2; simp at h2
    | cons a s => rw [hrev] at h2; exact ⟨s, by injection h2 with h; rw [h]⟩
  unfold pystrip rstrip
  rw [h1, hs]
  simp only [List.dropWhile_cons, hwy, if_neg Bool.false_ne_true, ite_false]
  rw [← hs, List.reverse_reverse]

theorem pystrip_wrap {core : List Char} {x y : Char} (hx : core.head? = some x)
    (hwx : pyws x = false) (hy : core.getLast? = some y) (hwy : pyws y = false) :
    pystrip ('\n' :: core ++ ['\n']) = core := by
  obtain ⟨t, rfl⟩ : ∃ t, core = x :: t := by
    cases core with
    | nil => simp at hx
    | cons a t => exact ⟨t, by injection hx with h; rw [h]⟩
  have hnl : pyws '\n' = true := rfl
  have h1 : lstrip ('\n' :: (x :: t) ++ ['\n']) = (x :: t) ++ ['\n'] := by
    simp [lstrip, List.dropWhile_cons, hwx, hnl, List.cons_append]
  have h2 : (x :: t).reverse.head? = some y := by rw [List.head?_reverse]; exact hy
  obtain ⟨s, hs⟩ : ∃ s, (x :: t).reverse = y :: s := by
    cases hrev : (x :: t).reverse with
    | nil => rw [hrev] at h2; simp at h2
    | cons a s => rw [hrev] at h2; exact ⟨s, by injection h2 with h; rw [h]⟩
  have hdrop : List.dropWhile pyws ('\n' :: y :: s) = y :: s := by
    rw [List.dropWhile_cons, if_pos hnl, List.dropWhile_cons,
      if_neg (by simp [hwy])]
  unfold pystrip rstrip
  rw [h1, List.reverse_append, List.reverse_singleton, List.singleton_append, hs, hdrop,
    ← hs, List.reverse_reverse]

theorem infix_ext_left {l m n : List Char} (h : l <:+: m) : l <:+: n ++ m := by
  obtain ⟨s, t, rfl⟩ := h
  exact ⟨n ++ s, t, by simp⟩

theorem infix_ext_right {l m n : List Char} (h : l <:+: m) : l <:+: m ++ n := by
  obtain ⟨s, t, rfl⟩ := h
  exact ⟨s, t ++ n, by simp⟩

/-! ### The prompt builder -/

theorem build_prompt_eq (dish : List Char) (p : Profile) :
    build_prompt dish p =
      promptHead.data ++ dish ++ promptMid1.data ++ schemaTemplate.data ++
        promptMid2.data ++ userContext p ++ promptMid3.data ++ jsonDirective.data := by
  unfold build_prompt promptRaw
  have hph : promptHead.data = 'Y' :: "ou are a nutrition expert. Analyze the dish \"".data := rfl
  have hx : (promptHead.data ++ dish ++ promptMid1.data ++ schemaTemplate.data ++
      promptMid2.data ++ userContext p ++ promptMid3.data ++ jsonDirective.data).head? =
      some 'Y' := by
    rw [hph]
    simp [List.cons_append]
  have hy : (promptHead.data ++ dish ++ promptMid1.data ++ schemaTemplate.data ++
      promptMid2.data ++ userContext p ++ promptMid3.data ++ jsonDirective.data).getLast? =
      some '.' := by
    rw [List.getLast?_append_of_ne_nil _ (by decide)]
    rfl
  exact pystrip_wrap hx rfl hy rfl

theorem build_prompt_head (dish : List Char) (p : Profile) :
    (build_prompt dish p).head? = some 'Y' := by
  rw [build_prompt_eq]
  have hph : promptHead.data = 'Y' :: "ou are a nutrition expert. Analyze the dish \"".data := rfl
  rw [hph]
  simp [List.cons_append]

theorem build_prompt_last (dish : List Char) (p : Profile) :
    (build_prompt dish p).getLast? = some '.' := by
  rw [build_prompt_eq, List.getLast?_append_of_ne_nil _ (by decide)]
  rfl

theorem userContext_infix_build_prompt (dish : List Char) (p : Profile) :
    userContext p <:+: build_prompt dish p := by
  rw [build_prompt_eq]
  exact infix_ext_right (infix_ext_right (List.suffix_append _ _).isInfix)

/-! ### Claim theorems: prompt builder and handler -/

/-- C4: for every profile dictionary with any subset of the fields omitted,
`build_prompt` yields a string containing the literal placeholder of each
omitted field (`?` for age/height/weight, `unspecified` for gender and
activity level, `none` for dietary preference and allergies).  The
function is total in the model, matching the fact that `dict.get` with a
default never raises. -/
theorem build_prompt_placeholders (dish : List Char) (p : Profile) :
    (p.age = none → "?".data <:+: build_prompt dish p) ∧
    (p.gender = none → "unspecified".data <:+: build_prompt dish p) ∧
    (p.height_cm = none → "?".data <:+: build_prompt dish p) ∧
    (p.weight_kg = none → "?".data <:+: build_prompt dish p) ∧
    (p.activity_level = none → "unspecified".data <:+: build_prompt dish p) ∧
    (p.dietary_pref = none → "none".data <:+: build_prompt dish p) ∧
    (p.allergies = none → "none".data <:+: build_prompt dish p) := by
  have huc := userContext_infix_build_prompt dish p
  refine ⟨fun h => ?_, fun h => ?_, fun h => ?_, fun h => ?_, fun h => ?_, fun h => ?_,
    fun h => ?_⟩ <;>
    refine List.IsInfix.trans ?_ huc <;>
    simp only [userContext, h, Option.getD_none, List.append_assoc]
  · exact infix_ext_left (List.prefix_append _ _).isInfix
  · exact infix_ext_left (infix_ext_left (infix_ext_left
      (List.prefix_append _ _).isInfix))
  · exact infix_ext_left (infix_ext_left (infix_ext_left (infix_ext_left (infix_ext_left
      (List.prefix_append _ _).isInfix))))
  · exact infix_ext_left (infix_ext_left (infix_ext_left (infix_ext_left (infix_ext_left
      (infix_ext_left (infix_ext_left (List.prefix_append _ _).isInfix))))))
  · exact infix_ext_left (infix_ext_left (infix_ext_left (infix_ext_left (infix_ext_left
      (infix_ext_left (infix_ext_left (infix_ext_left (infix_ext_left
      (List.prefix_append _ _).isInfix))))))))
  · exact infix_ext_left (infix_ext_left (infix_ext_left (infix_ext_left (infix_ext_left
      (infix_ext_left (infix_ext_left (infix_ext_left (infix_ext_left (infix_ext_left
      (infix_ext_left (List.prefix_append _ _).isInfix))))))))))
  · exact infix_ext_left (infix_ext_left (infix_ext_left (infix_ext_left (infix_ext_left
      (infix_ext_left (infix_ext_left (infix_ext_left (infix_ext_left (infix_ext_left
      (infix_ext_left (infix_ext_left (infix_ext_left
      (List.prefix_append _ _).isInfix))))))))))))

/-- C4 witness: at the fully-omitted profile every placeholder occurs. -/
theorem build_prompt_placeholders_witness :
    "?".data <:+: build_prompt "idli".data {} ∧
    "unspecified".data <:+: build_prompt "idli".data {} ∧
    "none".data <:+: build_prompt "idli".data {} := by
  have h := build_prompt_placeholders "idli".data {}
  exact ⟨h.1 rfl, h.2.1 rfl, h.2.2.2.2.2.1 rfl⟩

/-- C5: for every dish name and profile, the prompt contains the literal
JSON-only directive and the full literal schema template, and the result
is trimmed (stripping it again changes nothing, i.e. no leading or
trailing whitespace). -/
theorem build_prompt_directive_schema_trimmed (dish : List Char) (p : Profile) :
    jsonDirective.data <:+: build_prompt dish p ∧
    schemaTemplate.data <:+: build_prompt dish p ∧
    pystrip (build_prompt dish p) = build_prompt dish p := by
  refine ⟨?_, ?_, ?_⟩
  · rw [build_prompt_eq]
    exact (List.suffix_append _ _).isInfix
  · rw [build_prompt_eq]
    exact infix_ext_right (infix_ext_right (infix_ext_right (infix_ext_right
      (List.suffix_append _ _).isInfix)))
  · exact pystrip_eq_self (build_prompt_head dish p) rfl (build_prompt_last dish p) rfl

/-- C2: the extractor recovers the Idli record from the fenced scenario
input of the spec. -/
theorem safe_json_parse_idli :
    safe_json_parse
        "Sure! ```json\n\x7b\"dish_name\":\"Idli\",\"calories_kcal\":120\x7d\n```".data =
      some (.obj [("dish_name".data, .str "Idli".data),
        ("calories_kcal".data, .num 120 0)]) := rfl

/-- C6: with an empty dish name and no image, the analyze handler warns
and performs no model call; with either one supplied the model call
proceeds. -/
theorem analyze_gate (dish : List Char) (hasImage : Bool) (notes : List Char) (p : Profile) :
    (dish = [] ∧ hasImage = false →
      analyzeAction dish hasImage notes p = .warnNoInput) ∧
    (dish ≠ [] ∨ hasImage = true →
      ∃ prompt, analyzeAction dish hasImage notes p = .callModel prompt hasImage) := by
  constructor
  · rintro ⟨rfl, rfl⟩
    rfl
  · intro h
    have hcond : (dish.isEmpty && !hasImage) = false := by
      rcases h with h | h
      · cases dish with
        | nil => exact absurd rfl h
        | cons c t => simp [List.isEmpty]
      · rw [h]
        simp
    exact ⟨_, by rw [analyzeAction, hcond]; rfl⟩

/-- C6 witness: concrete rejected and accepted requests. -/
theorem analyze_gate_witness :
    analyzeAction [] false [] {} = .warnNoInput ∧
    ∃ prompt, analyzeAction "x".data true [] {} = .callModel prompt true :=
  ⟨(analyze_gate [] false [] {}).1 ⟨rfl, rfl⟩,
   (analyze_gate "x".data true [] {}).2 (Or.inr rfl)⟩

/-- C10: whenever the extractor returns the empty object, the handler's
`if parsed_json:` dispatch takes the raw-text fallback branch (the empty
dict is falsy), not the structured-rendering branch. -/
theorem empty_object_falls_back (raw : List Char)
    (h : safe_json_parse raw = some (.obj [])) :
    renderBranch (safe_json_parse raw) = false := by
  rw [h]
  rfl

/-- C10 witness: the input `"{}"` decodes to the empty object and lands in
the fallback branch. -/
theorem empty_object_falls_back_witness :
    safe_json_parse "{}".data = some (.obj []) ∧
    renderBranch (safe_json_parse "{}".data) = false :=
  ⟨rfl, empty_object_falls_back "{}".data rfl⟩

/-! ### Claim theorems: renderer -/

theorem lookupLast_of_not_hasKey {kvs : List (List Char × Json)} {k : List Char}
    (h : hasKey kvs k = false) : lookupLast kvs k = none := by
  induction kvs with
  | nil => rfl
  | cons kv t ih =>
    unfold hasKey at h
    simp only [List.any_cons, Bool.or_eq_false_iff] at h
    unfold lookupLast
    rw [List.filter_cons, if_neg (by simp [h.1])]
    exact ih h.2

theorem pyGetD_of_not_hasKey {kvs : List (List Char × Json)} {k : List Char} (d : Json)
    (h : hasKey kvs k = false) : pyGetD kvs k d = d := by
  unfold pyGetD
  rw [lookupLast_of_not_hasKey h]
  rfl

/-- C7: the rendering branch never fails on a record missing any subset of
the NutritionReport fields: every absent field is displayed with its
explicit per-field default (`Unknown`, empty join, `0 g`, `0 kcal`, empty
macro/micro iterations, the `None` allergens line, confidence `0.0` with
`0%` captions, `? g — No suggestion`, `- — `, no advice lines). -/
theorem render_missing_defaults (kvs : List (List Char × Json)) :
    (hasKey kvs "dish_name".data = false →
      (render kvs).dishLine = "### 🍽️ Dish: **Unknown**".data) ∧
    (hasKey kvs "ingredients".data = false → (render kvs).ingredientsLine = some []) ∧
    (hasKey kvs "estimated_serving_g".data = false →
      (render kvs).servingMetric = "0 g".data) ∧
    (hasKey kvs "calories_kcal".data = false →
      (render kvs).caloriesMetric = "0 kcal".data) ∧
    (hasKey kvs "macros".data = false → (render kvs).macroLines = some []) ∧
    (hasKey kvs "micros".data = false → (render kvs).microLines = some []) ∧
    (hasKey kvs "allergens".data = false →
      (render kvs).allergensWarn = false ∧ (render kvs).allergensLine = some "None".data) ∧
    (hasKey kvs "confidence".data = false →
      (render kvs).progressValue = some (.num 0 (-1)) ∧
      (render kvs).confCaption =
        some "Calories confidence: 0% | Ingredients confidence: 0%".data) ∧
    (hasKey kvs "portion_recommendation".data = false →
      (render kvs).portionLine = some "**? g** — No suggestion".data) ∧
    (hasKey kvs "healthiness_verdict".data = false →
      (render kvs).verdictLine = some "**-** — ".data ∧
      (render kvs).verdict2Line = none) ∧
    (hasKey kvs "advice".data = false → (render kvs).adviceLines = some []) := by
  refine ⟨fun h => ?_, fun h => ?_, fun h => ?_, fun h => ?_, fun h => ?_, fun h => ?_,
    fun h => ?_, fun h => ?_, fun h => ?_, fun h => ?_, fun h => ?_⟩ <;>
    simp only [render] <;>
    rw [pyGetD_of_not_hasKey _ h] <;>
    first
    | exact ⟨rfl, rfl⟩
    | rfl

/-- C7 witness: the fully empty record renders entirely with defaults. -/
theorem render_missing_defaults_witness :
    (render []).dishLine = "### 🍽️ Dish: **Unknown**".data ∧
    (render []).ingredientsLine = some [] ∧
    (render []).servingMetric = "0 g".data ∧
    (render []).caloriesMetric = "0 kcal".data ∧
    (render []).macroLines = some [] ∧
    (render []).microLines = some [] ∧
    (render []).allergensWarn = false ∧
    (render []).allergensLine = some "None".data ∧
    (render []).progressValue = some (.num 0 (-1)) ∧
    (render []).confCaption =
      some "Calories confidence: 0% | Ingredients confidence: 0%".data ∧
    (render []).portionLine = some "**? g** — No suggestion".data ∧
    (render []).verdictLine = some "**-** — ".data ∧
    (render []).verdict2Line = none ∧
    (render []).adviceLines = some [] := by
  have h := render_missing_defaults []
  exact ⟨h.1 rfl, h.2.1 rfl, h.2.2.1 rfl, h.2.2.2.1 rfl, h.2.2.2.2.1 rfl,
    h.2.2.2.2.2.1 rfl, (h.2.2.2.2.2.2.1 rfl).1, (h.2.2.2.2.2.2.1 rfl).2,
    (h.2.2.2.2.2.2.2.1 rfl).1, (h.2.2.2.2.2.2.2.1 rfl).2,
    h.2.2.2.2.2.2.2.2.1 rfl, (h.2.2.2.2.2.2.2.2.2.1 rfl).1,
    (h.2.2.2.2.2.2.2.2.2.1 rfl).2, h.2.2.2.2.2.2.2.2.2.2 rfl⟩

/-- C8 counterexample: for the record with `confidence.overall = 0.83`,
`calories = 0.7`, `ingredients = 0.5`, the progress indicator does get
`0.83`, but the caption the code builds (line 233) shows only the calories
and ingredients percentages — the string `"83%"` appears nowhere in it,
so no caption shows the overall confidence rounded. -/
theorem conf_caption_counterexample :
    (render [("confidence".data,
        .obj [("overall".data, .num 83 (-2)), ("calories".data, .num 7 (-1)),
          ("ingredients".data, .num 5 (-1))])]).progressValue =
      some (.num 83 (-2)) ∧
    (render [("confidence".data,
        .obj [("overall".data, .num 83 (-2)), ("calories".data, .num 7 (-1)),
          ("ingredients".data, .num 5 (-1))])]).confCaption =
      some "Calories confidence: 70% | Ingredients confidence: 50%".data ∧
    containsSub "83%".data
      "Calories confidence: 70% | Ingredients confidence: 50%".data = false :=
  ⟨rfl, rfl, rfl⟩

/-- C8 (amended): with `confidence.overall = 0.83` the progress indicator
receives `0.83`, and with `confidence.calories = 0.7` the caption (when it
renders) starts with `Calories confidence: 70%`; the overall confidence is
never captioned as a percentage. -/
theorem conf_rendering_amended (kvs cs : List (List Char × Json))
    (hconf : pyGetD kvs "confidence".data (.obj []) = .obj cs)
    (hov : pyGetD cs "overall".data (.num 0 (-1)) = .num 83 (-2))
    (hcal : pyGetD cs "calories".data (.num 0 (-1)) = .num 7 (-1)) :
    (render kvs).progressValue = some (.num 83 (-2)) ∧
    ((render kvs).confCaption = none ∨
      ∃ cap, (render kvs).confCaption = some cap ∧
        "Calories confidence: 70%".data <+: cap) := by
  have h70 : fmtPct (.num 7 (-1)) = some "70".data := rfl
  constructor
  · simp only [render, hconf, hov]
  · cases hj : fmtPct (pyGetD cs "ingredients".data (.num 0 (-1))) with
    | none =>
      left
      simp only [render, hconf, hcal, h70, hj]
      rfl
    | some p =>
      right
      refine ⟨"Calories confidence: ".data ++ "70".data ++
          "% | Ingredients confidence: ".data ++ p ++ "%".data, ?_, ?_⟩
      · simp only [render, hconf, hcal, h70, hj]
        rfl
      · exact ⟨" | Ingredients confidence: ".data ++ (p ++ "%".data), rfl⟩

/-- C8 amended witness: the counterexample record instantiates the amended
statement. -/
theorem conf_rendering_amended_witness :
    (render [("confidence".data,
        .obj [("overall".data, .num 83 (-2)), ("calories".data, .num 7 (-1)),
          ("ingredients".data, .num 5 (-1))])]).progressValue =
      some (.num 83 (-2)) ∧
    ((render [("confidence".data,
        .obj [("overall".data, .num 83 (-2)), ("calories".data, .num 7 (-1)),
          ("ingredients".data, .num 5 (-1))])]).confCaption = none ∨
      ∃ cap,
        (render [("confidence".data,
          .obj [("overall".data, .num 83 (-2)), ("calories".data, .num 7 (-1)),
            ("ingredients".data, .num 5 (-1))])]).confCaption = some cap ∧
        "Calories confidence: 70%".data <+: cap) :=
  conf_rendering_amended _
    [("overall".data, .num 83 (-2)), ("calories".data, .num 7 (-1)),
      ("ingredients".data, .num 5 (-1))] rfl rfl rfl

/-! ### Decimal digit lemmas -/

theorem natToDigitsGo_eq (n : Nat) : ∀ f, n < f → natToDigitsGo f n = natToDigits n := by
  induction n using Nat.strong_induction_on with
  | _ n ih =>
    intro f hf
    cases f with
    | zero => omega
    | succ g =>
      by_cases h10 : n < 10
      · simp [natToDigitsGo, natToDigits, h10]
      · have hdiv : n / 10 < n := Nat.div_lt_self (by omega) (by omega)
        have h1 : natToDigitsGo (g + 1) n =
            natToDigitsGo g (n / 10) ++ [digitChar (n % 10)] := by
          simp [natToDigitsGo, h10]
        have h2 : natToDigits n = natToDigitsGo n (n / 10) ++ [digitChar (n % 10)] := by
          unfold natToDigits
          simp [natToDigitsGo, h10]
        rw [h1, h2, ih (n / 10) hdiv g (by omega), ih (n / 10) hdiv n (by omega)]

theorem natToDigits_unfold (n : Nat) :
    natToDigits n =
      if n < 10 then [digitChar n] else natToDigits (n / 10) ++ [digitChar (n % 10)] := by
  by_cases h10 : n < 10
  · simp [natToDigits, natToDigitsGo, h10]
  · have hdiv : n / 10 < n := Nat.div_lt_self (by omega) (by omega)
    have h2 : natToDigits n = natToDigitsGo n (n / 10) ++ [digitChar (n % 10)] := by
      unfold natToDigits
      simp [natToDigitsGo, h10]
    rw [h2, natToDigitsGo_eq (n / 10) n hdiv, if_neg h10]

theorem digitChar_isDigit : ∀ d, d < 10 → (digitChar d).isDigit = true := by decide

theorem digitVal_digitChar : ∀ d, d < 10 → digitVal (digitChar d) = d := by decide

theorem digitChar_ne_zero : ∀ d, d < 10 → 1 ≤ d → digitChar d ≠ '0' := by decide

theorem natToDigits_digits (n : Nat) : ∀ c ∈ natToDigits n, c.isDigit = true := by
  induction n using Nat.strong_induction_on with
  | _ n ih =>
    rw [natToDigits_unfold]
    by_cases h10 : n < 10
    · simp only [if_pos h10, List.mem_singleton]
      rintro c rfl
      exact digitChar_isDigit n h10
    · have hdiv : n / 10 < n := Nat.div_lt_self (by omega) (by omega)
      simp only [if_neg h10, List.mem_append, List.mem_singleton]
      rintro c (hc | rfl)
      · exact ih (n / 10) hdiv c hc
      · exact digitChar_isDigit _ (Nat.mod_lt _ (by omega))

theorem natToDigits_ne_nil (n : Nat) : natToDigits n ≠ [] := by
  rw [natToDigits_unfold]
  by_cases h10 : n < 10 <;> simp [h10]

theorem natToDigits_head (n : Nat) (hn : n ≠ 0) :
    ∃ c t, natToDigits n = c :: t ∧ c.isDigit = true ∧ c ≠ '0' := by
  induction n using Nat.strong_induction_on with
  | _ n ih =>
    rw [natToDigits_unfold]
    by_cases h10 : n < 10
    · exact ⟨digitChar n, [], by simp [h10], digitChar_isDigit n h10,
        digitChar_ne_zero n h10 (by omega)⟩
    · have hdiv : n / 10 < n := Nat.div_lt_self (by omega) (by omega)
      obtain ⟨c, t, heq, hdig, hne⟩ := ih (n / 10) hdiv (by omega)
      exact ⟨c, t ++ [digitChar (n % 10)], by simp [h10, heq], hdig, hne⟩

theorem digitsToNat_natToDigits (n : Nat) : digitsToNat (natToDigits n) = n := by
  induction n using Nat.strong_induction_on with
  | _ n ih =>
    rw [natToDigits_unfold]
    by_cases h10 : n < 10
    · simp only [if_pos h10]
      show 10 * 0 + digitVal (digitChar n) = n
      rw [digitVal_digitChar n h10]
      omega
    · have hdiv : n / 10 < n := Nat.div_lt_self (by omega) (by omega)
      simp only [if_neg h10]
      unfold digitsToNat
      rw [List.foldl_append]
      show 10 * digitsToNat (natToDigits (n / 10)) + digitVal (digitChar (n % 10)) = n
      rw [ih (n / 10) hdiv, digitVal_digitChar _ (Nat.mod_lt _ (by omega))]
      omega

/-! ### Number lexer lemmas -/

theorem takeWhile_append_all {p : Char → Bool} {a : List Char} (b : List Char)
    (ha : ∀ c ∈ a, p c = true) : (a ++ b).takeWhile p = a ++ b.takeWhile p := by
  induction a with
  | nil => simp
  | cons x t ih =>
    simp only [List.cons_append, List.takeWhile_cons, ha x (by simp)]
    rw [ih (fun c hc => ha c (by simp [hc]))]
    simp

theorem dropWhile_append_all {p : Char → Bool} {a : List Char} (b : List Char)
    (ha : ∀ c ∈ a, p c = true) : (a ++ b).dropWhile p = b.dropWhile p := by
  induction a with
  | nil => simp
  | cons x t ih =>
    simp only [List.cons_append, List.dropWhile_cons, ha x (by simp)]
    exact ih (fun c hc => ha c (by simp [hc]))

theorem takeWhile_eq_nil_of_stop {p : Char → Bool} {b : List Char}
    (hb : ∀ c, b.head? = some c → p c = false) : b.takeWhile p = [] := by
  cases b with
  | nil => rfl
  | cons x t => simp [List.takeWhile_cons, hb x rfl]

theorem dropWhile_eq_self_of_stop {p : Char → Bool} {b : List Char}
    (hb : ∀ c, b.head? = some c → p c = false) : b.dropWhile p = b := by
  cases b with
  | nil => rfl
  | cons x t => simp [List.dropWhile_cons, hb x rfl]

theorem takeDigits_append {a b : List Char} (ha : ∀ c ∈ a, c.isDigit = true)
    (hb : ∀ c, b.head? = some c → c.isDigit = false) :
    takeDigits (a ++ b) = (a, b) := by
  unfold takeDigits
  rw [takeWhile_append_all b ha, dropWhile_append_all b ha,
    takeWhile_eq_nil_of_stop hb, dropWhile_eq_self_of_stop hb, List.append_nil]

theorem numStop_not_digit {b : List Char} (h : numStop b = true) :
    ∀ c, b.head? = some c → c.isDigit = false := by
  intro c hc
  cases b with
  | nil => simp at hc
  | cons x t =>
    injection hc with hc
    subst hc
    simp only [numStop, Bool.not_eq_true'] at h
    simp only [Bool.or_eq_false_iff] at h
    exact h.2

theorem parseIntDigits_ser (n : Nat) (b : List Char)
    (hb : ∀ c, b.head? = some c → c.isDigit = false) :
    parseIntDigits (natToDigits n ++ b) = some (natToDigits n, b) := by
  by_cases hn : n = 0
  · subst hn
    have h0 : natToDigits 0 = ['0'] := rfl
    rw [h0]
    simp [parseIntDigits]
  · obtain ⟨c, t, heq, hdig, hne⟩ := natToDigits_head n hn
    rw [heq]
    have htd : takeDigits (t ++ b) = (t, b) := by
      refine takeDigits_append (fun d hd => ?_) hb
      exact natToDigits_digits n d (by rw [heq]; simp [hd])
    simp [parseIntDigits, hne, hdig, htd]

theorem parseFrac_stop {b : List Char}
    (hdot : ∀ c, b.head? = some c → c ≠ '.') : parseFrac b = (none, b) := by
  cases b with
  | nil => rfl
  | cons x t => simp [parseFrac, hdot x rfl]

theorem parseExp_stop {b : List Char}
    (he : ∀ c, b.head? = some c → c ≠ 'e' ∧ c ≠ 'E') : parseExp b = (none, b) := by
  cases b with
  | nil => rfl
  | cons x t =>
    have := he x rfl
    simp [parseExp, this.1, this.2]

theorem numStop_head {b : List Char} (h : numStop b = true) :
    ∀ c, b.head? = some c → c ≠ '.' ∧ c ≠ 'e' ∧ c ≠ 'E' ∧ c.isDigit = false := by
  intro c hc
  cases b with
  | nil => simp at hc
  | cons x t =>
    injection hc with hc
    subst hc
    simp only [numStop, Bool.not_eq_true'] at h
    simp only [Bool.or_eq_false_iff] at h
    refine ⟨?_, ?_, ?_, h.2⟩
    · intro hx; rw [hx] at h; simp at h
    · intro hx; rw [hx] at h; simp at h
    · intro hx; rw [hx] at h; simp at h

theorem digit_not_special : ∀ c : Char, c.isDigit = true →
    c ≠ '-' ∧ c ≠ '+' ∧ c ≠ '{' ∧ c ≠ '[' ∧ c ≠ '"' ∧ c ≠ 'n' ∧ c ≠ 't' ∧ c ≠ 'f' := by
  intro c h
  refine ⟨?_, ?_, ?_, ?_, ?_, ?_, ?_, ?_⟩ <;> (rintro rfl; simp [Char.isDigit] at h)

theorem parseExp_ser (e : Int) (b : List Char)
    (hbd : ∀ c, b.head? = some c → c.isDigit = false) :
    parseExp ('e' :: (intToDigits e ++ b)) = (some e, b) := by
  by_cases hneg : e < 0
  · have hi : intToDigits e = '-' :: natToDigits e.natAbs := by simp [intToDigits, hneg]
    have htd : takeDigits (natToDigits e.natAbs ++ b) = (natToDigits e.natAbs, b) :=
      takeDigits_append (natToDigits_digits _) hbd
    have hne := natToDigits_ne_nil e.natAbs
    rw [hi]
    simp only [List.cons_append, parseExp, htd]
    simp [hne, digitsToNat_natToDigits]
    rw [abs_of_neg hneg]
    ring
  · have hi : intToDigits e = natToDigits e.natAbs := by simp [intToDigits, hneg]
    obtain ⟨s, r₂, hs⟩ : ∃ s r₂, natToDigits e.natAbs = s :: r₂ := by
      cases h : natToDigits e.natAbs with
      | nil => exact absurd h (natToDigits_ne_nil _)
      | cons a t => exact ⟨a, t, rfl⟩
    have hsd : s.isDigit = true := natToDigits_digits _ s (by rw [hs]; simp)
    have hsp := digit_not_special s hsd
    have htd : takeDigits ((s :: r₂) ++ b) = (s :: r₂, b) := by
      rw [← hs]
      exact takeDigits_append (natToDigits_digits _) hbd
    have hne := natToDigits_ne_nil e.natAbs
    rw [hi, hs]
    simp only [List.cons_append, parseExp, htd]
    simp only [List.cons_append] at htd
    simp [hsp.1, hsp.2.1, htd, ← hs, hne, digitsToNat_natToDigits]
    omega

theorem parseNum_ser (m e : Int) (b : List Char) (hb : numStop b = true) :
    parseNum (serJson (.num m e) ++ b) = some ((m, e), b) := by
  have hbd := numStop_not_digit hb
  have hbh := numStop_head hb
  have hfrac : ∀ X : List Char, (∀ c, X.head? = some c → c ≠ '.') →
      parseFrac X = (none, X) := fun X hX => parseFrac_stop hX
  -- the continuation after the integer digits
  have hcont : ∀ sgn : Bool, ∀ n : Nat,
      parseNumCore sgn (natToDigits n ++ (if e = 0 then b else 'e' :: (intToDigits e ++ b))) =
        some (((if sgn then -(n : Int) else (n : Int)), e),  b) := by
    intro sgn n
    by_cases he : e = 0
    · rw [if_pos he]
      have h1 : parseIntDigits (natToDigits n ++ b) = some (natToDigits n, b) :=
        parseIntDigits_ser n b hbd
      have h2 : parseFrac b = (none, b) := parseFrac_stop (fun c hc => (hbh c hc).1)
      have h3 : parseExp b = (none, b) :=
        parseExp_stop (fun c hc => ⟨(hbh c hc).2.1, (hbh c hc).2.2.1⟩)
      simp [parseNumCore, h1, h2, h3, digitsToNat_natToDigits, he]
    · rw [if_neg he]
      have h1 : parseIntDigits (natToDigits n ++ ('e' :: (intToDigits e ++ b))) =
          some (natToDigits n, 'e' :: (intToDigits e ++ b)) :=
        parseIntDigits_ser n _ (fun c hc => by
          injection hc with hc
          rw [← hc]
          rfl)
      have h2 : parseFrac ('e' :: (intToDigits e ++ b)) =
          (none, 'e' :: (intToDigits e ++ b)) :=
        parseFrac_stop (fun c hc => by
          injection hc with hc
          rw [← hc]
          decide)
      have h3 := parseExp_ser e b hbd
      simp [parseNumCore, h1, h2, h3, digitsToNat_natToDigits]
  by_cases hm : m < 0
  · have hser : serJson (.num m e) ++ b =
        '-' :: (natToDigits m.natAbs ++ (if e = 0 then b else 'e' :: (intToDigits e ++ b))) := by
      by_cases he : e = 0 <;>
        simp [serJson, he, intToDigits, hm, List.cons_append, List.append_assoc]
    rw [hser]
    have hm' : -((m.natAbs : Int)) = m := by omega
    simp only [parseNum, if_pos rfl, hcont true m.natAbs, hm']
    simp
  · have hser : serJson (.num m e) ++ b =
        natToDigits m.natAbs ++ (if e = 0 then b else 'e' :: (intToDigits e ++ b)) := by
      by_cases he : e = 0 <;>
        simp [serJson, he, intToDigits, hm, List.cons_append, List.append_assoc]
    rw [hser]
    obtain ⟨s, r₂, hs⟩ : ∃ s r₂, natToDigits m.natAbs = s :: r₂ := by
      cases h : natToDigits m.natAbs with
      | nil => exact absurd h (natToDigits_ne_nil _)
      | cons a t => exact ⟨a, t, rfl⟩
    have hsd : s.isDigit = true := natToDigits_digits _ s (by rw [hs]; simp)
    have hsp := digit_not_special s hsd
    have hm' : ((m.natAbs : Int)) = m := by omega
    rw [hs]
    simp only [List.cons_append, parseNum, if_neg hsp.1]
    rw [← List.cons_append, ← hs, hcont false m.natAbs, hm']
    simp

/-! ### String body round-trip -/

theorem hexVal_hexDigitChar : ∀ n, n < 16 → hexVal (hexDigitChar n) = some n := by decide

theorem charOfCode_toNat (c : Char) : charOfCode c.toNat = some c := by
  have h : c.toNat.isValidChar := c.valid
  rw [charOfCode, dif_pos h]
  congr 1

theorem decodeHex4_00 (x y : Char) :
    decodeHex4 '0' '0' x y =
      (hexVal x).bind (fun z => (hexVal y).bind (fun w => some ((0 * 16 + z) * 16 + w))) := rfl

theorem parseEscape_u (x y : Char) (r : List Char) :
    parseEscape ('u' :: '0' :: '0' :: x :: y :: r) =
      (decodeHex4 '0' '0' x y).bind (fun n =>
        if n < 0xD800 ∨ 0xDFFF < n then (charOfCode n).bind (fun ch => some (ch, r))
        else if n ≤ 0xDBFF then
          match r with
          | '\\' :: 'u' :: a2 :: b2 :: c2 :: d2 :: r2 =>
            (decodeHex4 a2 b2 c2 d2).bind (fun m =>
              if 0xDC00 ≤ m ∧ m ≤ 0xDFFF then
                (charOfCode (0x10000 + (n - 0xD800) * 0x400 + (m - 0xDC00))).bind
                  (fun ch => some (ch, r2))
              else none)
          | _ => none
        else none) := rfl

theorem parseEscape_control (c : Char) (hctl : c.toNat < 32) (r : List Char) :
    parseEscape ('u' :: '0' :: '0' :: hexDigitChar (c.toNat / 16) ::
      hexDigitChar (c.toNat % 16) :: r) = some (c, r) := by
  have h1 : hexVal (hexDigitChar (c.toNat / 16)) = some (c.toNat / 16) :=
    hexVal_hexDigitChar _ (by omega)
  have h2 : hexVal (hexDigitChar (c.toNat % 16)) = some (c.toNat % 16) :=
    hexVal_hexDigitChar _ (by omega)
  have hn : (0 * 16 + c.toNat / 16) * 16 + c.toNat % 16 = c.toNat := by omega
  have hlt : c.toNat < 55296 := by omega
  rw [parseEscape_u, decodeHex4_00, h1, h2]
  simp only [Option.some_bind]
  rw [hn, if_pos (Or.inl hlt), charOfCode_toNat]
  rfl

theorem parseStrBody_escape (f : Nat) (r : List Char) :
    parseStrBody (f + 1) ('\\' :: r) =
      match parseEscape r with
      | none => none
      | some (ch, r') => (parseStrBody f r').map (fun (s, t) => (ch :: s, t)) := rfl

theorem parseStrBody_quote (f : Nat) (r : List Char) :
    parseStrBody (f + 1) ('"' :: r) = some ([], r) := rfl

theorem parseEscape_quote (r : List Char) : parseEscape ('"' :: r) = some ('"', r) := rfl

theorem parseEscape_backslash (r : List Char) : parseEscape ('\\' :: r) = some ('\\', r) := rfl

theorem parseStrBody_raw (f : Nat) (c : Char) (r : List Char) (h1 : ¬c = '"')
    (h2 : ¬c = '\\') (h3 : 32 ≤ c.toNat) :
    parseStrBody (f + 1) (c :: r) =
      (parseStrBody f r).map (fun (s, t) => (c :: s, t)) := by
  simp only [parseStrBody]
  rw [if_neg h1, if_neg h2, if_pos h3]

theorem parseStrBody_ser (s : List Char) : ∀ fuel rest, sizeStr s ≤ fuel →
    parseStrBody fuel (escStr s ++ '"' :: rest) = some (s, rest) := by
  induction s with
  | nil =>
    intro fuel rest hf
    obtain ⟨f, rfl⟩ : ∃ f, fuel = f + 1 := ⟨fuel - 1, by unfold sizeStr at hf; omega⟩
    exact parseStrBody_quote f rest
  | cons c s ih =>
    intro fuel rest hf
    obtain ⟨f, rfl⟩ : ∃ f, fuel = f + 1 := ⟨fuel - 1, by unfold sizeStr at hf; omega⟩
    have hs : sizeStr s ≤ f := by
      unfold sizeStr at hf ⊢
      simp only [List.length_cons] at hf
      omega
    have hesc : escStr (c :: s) ++ '"' :: rest =
        escapeChar c ++ (escStr s ++ '"' :: rest) := by
      simp [escStr]
    rw [hesc]
    by_cases hq : c = '"'
    · subst hq
      show parseStrBody (f + 1) ('\\' :: '"' :: (escStr s ++ '"' :: rest)) = _
      rw [parseStrBody_escape, parseEscape_quote]
      simp [ih f rest hs]
    · by_cases hbs : c = '\\'
      · subst hbs
        show parseStrBody (f + 1) ('\\' :: '\\' :: (escStr s ++ '"' :: rest)) = _
        rw [parseStrBody_escape, parseEscape_backslash]
        simp [ih f rest hs]
      · by_cases hctl : c.toNat < 32
        · have he : escapeChar c = ['\\', 'u', '0', '0',
              hexDigitChar (c.toNat / 16), hexDigitChar (c.toNat % 16)] := by
            simp [escapeChar, hq, hbs, hctl]
          rw [he]
          show parseStrBody (f + 1) ('\\' :: ('u' :: '0' :: '0' ::
            hexDigitChar (c.toNat / 16) :: hexDigitChar (c.toNat % 16) ::
            (escStr s ++ '"' :: rest))) = _
          rw [parseStrBody_escape, parseEscape_control c hctl]
          simp [ih f rest hs]
        · have he : escapeChar c = [c] := by simp [escapeChar, hq, hbs, hctl]
          rw [he]
          show parseStrBody (f + 1) (c :: (escStr s ++ '"' :: rest)) = _
          rw [parseStrBody_raw f c _ hq hbs (by omega)]
          simp [ih f rest hs]

/-! ### Value round-trip -/

theorem skipWs_cons {c : Char} (t : List Char) (h : jsonws c = false) :
    skipWs (c :: t) = c :: t := by
  simp [skipWs, List.dropWhile_cons, h]

theorem digit_not_close : ∀ c : Char, c.isDigit = true →
    jsonws c = false ∧ c ≠ ']' ∧ c ≠ '}' := by
  intro c h
  refine ⟨?_, ?_, ?_⟩
  · by_contra hw
    simp only [Bool.not_eq_false] at hw
    simp only [jsonws, Bool.or_eq_true, decide_eq_true_eq] at hw
    rcases hw with ((rfl | rfl) | rfl) | rfl <;> simp [Char.isDigit] at h
  · rintro rfl; simp [Char.isDigit] at h
  · rintro rfl; simp [Char.isDigit] at h

theorem intToDigits_head (m : Int) :
    ∃ c t, intToDigits m = c :: t ∧ (c = '-' ∨ c.isDigit = true) := by
  by_cases hm : m < 0
  · exact ⟨'-', natToDigits m.natAbs, by simp [intToDigits, hm], Or.inl rfl⟩
  · have hne := natToDigits_ne_nil m.natAbs
    cases h : natToDigits m.natAbs with
    | nil => exact absurd h hne
    | cons c t =>
      refine ⟨c, t, by simp [intToDigits, hm, h], Or.inr ?_⟩
      exact natToDigits_digits _ c (by rw [h]; simp)

theorem serJson_head (j : Json) :
    ∃ c t, serJson j = c :: t ∧ jsonws c = false ∧ c ≠ ']' ∧ c ≠ '}' := by
  cases j with
  | null => exact ⟨'n', "ull".data, rfl, by decide, by decide, by decide⟩
  | bool b =>
    cases b with
    | true => exact ⟨'t', "rue".data, rfl, by decide, by decide, by decide⟩
    | false => exact ⟨'f', "alse".data, rfl, by decide, by decide, by decide⟩
  | num m e =>
    obtain ⟨c, t, hct, hc⟩ := intToDigits_head m
    have hser : ∃ t', serJson (.num m e) = c :: t' := by
      by_cases he : e = 0
      · exact ⟨t, by simp [serJson, he, hct]⟩
      · exact ⟨t ++ 'e' :: intToDigits e, by simp [serJson, he, hct]⟩
    obtain ⟨t', ht'⟩ := hser
    rcases hc with rfl | hd
    · exact ⟨'-', t', ht', by decide, by decide, by decide⟩
    · have := digit_not_close c hd
      exact ⟨c, t', ht', this.1, this.2.1, this.2.2⟩
  | str s => exact ⟨'"', escStr s ++ ['"'], rfl, by decide, by decide, by decide⟩
  | arr xs => exact ⟨'[', serItems xs ++ [']'], rfl, by decide, by decide, by decide⟩
  | obj kvs => exact ⟨'{', serMembers kvs ++ ['}'], rfl, by decide, by decide, by decide⟩

theorem parseVal_null (f : Nat) (rest : List Char) :
    parseVal (f + 1) ('n' :: ('u' :: 'l' :: 'l' :: rest)) = some (.null, rest) := by
  simp [parseVal]

theorem parseVal_true (f : Nat) (rest : List Char) :
    parseVal (f + 1) ('t' :: ('r' :: 'u' :: 'e' :: rest)) = some (.bool true, rest) := by
  simp [parseVal]

theorem parseVal_false (f : Nat) (rest : List Char) :
    parseVal (f + 1) ('f' :: ('a' :: 'l' :: 's' :: 'e' :: rest)) = some (.bool false, rest) := by
  simp [parseVal]

theorem parseVal_str (f : Nat) (t : List Char) :
    parseVal (f + 1) ('"' :: t) = (parseStrBody f t).map (fun (s, r) => (.str s, r)) := rfl

theorem parseVal_arr (f : Nat) (t : List Char) :
    parseVal (f + 1) ('[' :: t) =
      (match skipWs t with
       | ']' :: r => some (.arr [], r)
       | t' => (parseArrItems f t').map (fun (xs, r) => (.arr xs, r))) := rfl

theorem parseVal_obj (f : Nat) (t : List Char) :
    parseVal (f + 1) ('{' :: t) =
      (match skipWs t with
       | '}' :: r => some (.obj [], r)
       | t' => (parseObjItems f t').map (fun (kvs, r) => (.obj kvs, r))) := rfl

theorem parseArrItems_eq (f : Nat) (l : List Char) :
    parseArrItems (f + 1) l =
      (match parseVal f l with
       | none => none
       | some (x, r₁) =>
         match skipWs r₁ with
         | ',' :: r₂ => (parseArrItems f (skipWs r₂)).map (fun (xs, r) => (x :: xs, r))
         | ']' :: r₂ => some ([x], r₂)
         | _ => none) := rfl

theorem parseObjItems_quote (f : Nat) (t : List Char) :
    parseObjItems (f + 1) ('"' :: t) =
      (match parseStrBody f t with
       | none => none
       | some (k, r₁) =>
         match skipWs r₁ with
         | ':' :: r₂ =>
           (match parseVal f (skipWs r₂) with
            | none => none
            | some (v, r₃) =>
              match skipWs r₃ with
              | ',' :: r₄ => (parseObjItems f (skipWs r₄)).map (fun (kvs, r) => ((k, v) :: kvs, r))
              | '}' :: r₄ => some ([(k, v)], r₄)
              | _ => none)
         | _ => none) := rfl

theorem parseVal_num_head (f : Nat) (c : Char) (t : List Char) (m e : Int) (r : List Char)
    (hc : c = '-' ∨ c.isDigit = true) (h : parseNum (c :: t) = some ((m, e), r)) :
    parseVal (f + 1) (c :: t) = some (.num m e, r) := by
  rcases hc with rfl | hd
  · simp [parseVal, h]
  · have hsp := digit_not_special c hd
    simp only [parseVal]
    rw [if_neg hsp.2.2.1, if_neg hsp.2.2.2.1, if_neg hsp.2.2.2.2.1, if_neg hsp.2.2.2.2.2.1,
      if_neg hsp.2.2.2.2.2.2.1, if_neg hsp.2.2.2.2.2.2.2, if_pos (Or.inr hd), h]
    rfl

theorem arrDispatch_ne {A B : List Char → Option (Json × List Char)} (c : Char)
    (t : List Char) (hc : ¬c = ']') :
    (match c :: t with
     | ']' :: r => A r
     | t' => B t') = B (c :: t) := by
  split
  · rename_i heq
    injection heq with h1 h2
    subst h1
    exact absurd rfl hc
  · rfl

theorem objDispatch_ne {A B : List Char → Option (Json × List Char)} (c : Char)
    (t : List Char) (hc : ¬c = '}') :
    (match c :: t with
     | '}' :: r => A r
     | t' => B t') = B (c :: t) := by
  split
  · rename_i heq
    injection heq with h1 h2
    subst h1
    exact absurd rfl hc
  · rfl

theorem sizeJ_pos (j : Json) : 1 ≤ sizeJ j := by
  cases j with
  | arr xs => cases xs <;> simp [sizeJ]
  | obj kvs => cases kvs <;> simp [sizeJ]
  | str s => simp [sizeJ]
  | _ => simp [sizeJ]

theorem sizeItems_pos (xs : List Json) : 1 ≤ sizeItems xs := by
  cases xs <;> simp [sizeItems]

theorem sizeMembers_pos (kvs : List (List Char × Json)) : 1 ≤ sizeMembers kvs := by
  cases kvs with
  | nil => simp [sizeMembers]
  | cons kv t => obtain ⟨k, v⟩ := kv; simp [sizeMembers]

theorem parse_ser (fuel : Nat) :
    (∀ j rest, sizeJ j ≤ fuel → (isNum j = true → numStop rest = true) →
      parseVal fuel (serJson j ++ rest) = some (j, rest)) ∧
    (∀ xs rest, xs ≠ [] → sizeItems xs ≤ fuel →
      parseArrItems fuel (serItems xs ++ ']' :: rest) = some (xs, rest)) ∧
    (∀ kvs rest, kvs ≠ [] → sizeMembers kvs ≤ fuel →
      parseObjItems fuel (serMembers kvs ++ '}' :: rest) = some (kvs, rest)) := by
  induction fuel using Nat.strong_induction_on with
  | _ fuel ih =>
    obtain rfl | ⟨f, rfl⟩ : fuel = 0 ∨ ∃ f, fuel = f + 1 := by
      cases fuel
      · exact Or.inl rfl
      · exact Or.inr ⟨_, rfl⟩
    · refine ⟨fun j rest hs _ => ?_, fun xs rest hne hs => ?_, fun kvs rest hne hs => ?_⟩
      · have := sizeJ_pos j; omega
      · have := sizeItems_pos xs; omega
      · have := sizeMembers_pos kvs; omega
    · refine ⟨fun j rest hs hn => ?_, fun xs rest hne hs => ?_, fun kvs rest hne hs => ?_⟩
      · -- one value
        cases j with
        | null => exact parseVal_null f rest
        | bool b =>
          cases b with
          | true => exact parseVal_true f rest
          | false => exact parseVal_false f rest
        | num m e =>
          have hnum := parseNum_ser m e rest (hn rfl)
          obtain ⟨c, t0, hct, hc⟩ := intToDigits_head m
          by_cases he : e = 0
          · have hser : serJson (.num m e) = c :: t0 := by simp [serJson, he, hct]
            rw [hser] at hnum ⊢
            rw [List.cons_append] at hnum ⊢
            exact parseVal_num_head f c _ m e rest hc hnum
          · have hser : serJson (.num m e) = c :: (t0 ++ 'e' :: intToDigits e) := by
              simp [serJson, he, hct]
            rw [hser] at hnum ⊢
            rw [List.cons_append] at hnum ⊢
            exact parseVal_num_head f c _ m e rest hc hnum
        | str s =>
          have hlen : sizeStr s ≤ f := by
            unfold sizeJ at hs
            unfold sizeStr
            omega
          have hform : serJson (.str s) ++ rest = '"' :: (escStr s ++ '"' :: rest) := by
            simp [serJson]
          rw [hform, parseVal_str, parseStrBody_ser s f rest hlen]
          rfl
        | arr xs =>
          cases xs with
          | nil =>
            have hform : serJson (.arr []) ++ rest = '[' :: (']' :: rest) := by
              simp [serJson, serItems]
            rw [hform, parseVal_arr, skipWs_cons _ (by decide)]
            rfl
          | cons x xs' =>
            obtain ⟨c, t0, hct, hws, hc1, hc2⟩ := serJson_head x
            obtain ⟨Y, hY⟩ : ∃ Y, serItems (x :: xs') ++ ']' :: rest = c :: Y := by
              cases xs' with
              | nil => exact ⟨t0 ++ ']' :: rest, by simp [serItems, hct]⟩
              | cons a b =>
                exact ⟨t0 ++ ',' :: (serItems (a :: b) ++ ']' :: rest),
                  by simp [serItems, hct, List.append_assoc]⟩
            have hitems : parseArrItems f (serItems (x :: xs') ++ ']' :: rest) =
                some (x :: xs', rest) := by
              refine (ih f (by omega)).2.1 (x :: xs') rest (by simp) ?_
              unfold sizeJ at hs
              omega
            have hform : serJson (.arr (x :: xs')) ++ rest =
                '[' :: (serItems (x :: xs') ++ ']' :: rest) := by
              simp [serJson, List.cons_append, List.append_assoc]
            rw [hform, parseVal_arr, hY, skipWs_cons _ hws]
            split
            · rename_i r heq
              injection heq with h1 h2
              subst h1
              exact absurd rfl hc1
            · rw [← hY, hitems]
              rfl
        | obj kvs =>
          cases kvs with
          | nil =>
            have hform : serJson (.obj []) ++ rest = '{' :: ('}' :: rest) := by
              simp [serJson, serMembers]
            rw [hform, parseVal_obj, skipWs_cons _ (by decide)]
            rfl
          | cons kv kvs' =>
            obtain ⟨k, v⟩ := kv
            obtain ⟨Y, hY⟩ : ∃ Y, serMembers ((k, v) :: kvs') ++ '}' :: rest = '"' :: Y := by
              cases kvs' with
              | nil =>
                exact ⟨escStr k ++ '"' :: ':' :: serJson v ++ '}' :: rest,
                  by simp [serMembers, List.append_assoc]⟩
              | cons z w =>
                exact ⟨escStr k ++ '"' :: ':' :: serJson v ++
                    ',' :: (serMembers (z :: w) ++ '}' :: rest),
                  by simp [serMembers, List.append_assoc]⟩
            have hmembers : parseObjItems f (serMembers ((k, v) :: kvs') ++ '}' :: rest) =
                some ((k, v) :: kvs', rest) := by
              refine (ih f (by omega)).2.2 ((k, v) :: kvs') rest (by simp) ?_
              unfold sizeJ at hs
              omega
            have hform : serJson (.obj ((k, v) :: kvs')) ++ rest =
                '{' :: (serMembers ((k, v) :: kvs') ++ '}' :: rest) := by
              simp [serJson, List.cons_append, List.append_assoc]
            rw [hform, parseVal_obj, hY, skipWs_cons _ (by decide)]
            split
            · rename_i r heq
              injection heq with h1 h2
              exact absurd h1 (by decide)
            · rw [← hY, hmembers]
              rfl
      · -- array items
        cases xs with
        | nil => exact absurd rfl hne
        | cons x xs' =>
          have hx : sizeJ x ≤ f := by
            unfold sizeItems at hs
            omega
          cases xs' with
          | nil =>
            have h1 : parseVal f (serJson x ++ ']' :: rest) = some (x, ']' :: rest) :=
              (ih f (by omega)).1 x (']' :: rest) hx (fun _ => rfl)
            have hform : serItems [x] ++ ']' :: rest = serJson x ++ ']' :: rest := by
              simp [serItems]
            rw [hform, parseArrItems_eq, h1]
            rfl
          | cons y ys =>
            have hform : serItems (x :: y :: ys) ++ ']' :: rest =
                serJson x ++ (',' :: (serItems (y :: ys) ++ ']' :: rest)) := by
              simp [serItems, List.cons_append, List.append_assoc]
            have h1 : parseVal f (serJson x ++ (',' :: (serItems (y :: ys) ++ ']' :: rest))) =
                some (x, ',' :: (serItems (y :: ys) ++ ']' :: rest)) :=
              (ih f (by omega)).1 x _ hx (fun _ => rfl)
            have hsw : skipWs (',' :: (serItems (y :: ys) ++ ']' :: rest)) =
                ',' :: (serItems (y :: ys) ++ ']' :: rest) := skipWs_cons _ (by decide)
            obtain ⟨c, t0, hct, hws, hc1, hc2⟩ := serJson_head y
            obtain ⟨Y, hY⟩ : ∃ Y, serItems (y :: ys) ++ ']' :: rest = c :: Y := by
              cases ys with
              | nil => exact ⟨t0 ++ ']' :: rest, by simp [serItems, hct]⟩
              | cons a b =>
                exact ⟨t0 ++ ',' :: (serItems (a :: b) ++ ']' :: rest),
                  by simp [serItems, hct, List.append_assoc]⟩
            have hsw2 : skipWs (serItems (y :: ys) ++ ']' :: rest) =
                serItems (y :: ys) ++ ']' :: rest := by
              rw [hY]
              exact skipWs_cons _ hws
            have h2 : parseArrItems f (serItems (y :: ys) ++ ']' :: rest) =
                some (y :: ys, rest) := by
              refine (ih f (by omega)).2.1 (y :: ys) rest (by simp) ?_
              simp only [sizeItems] at hs ⊢
              omega
            rw [hform, parseArrItems_eq, h1]
            show (parseArrItems f (skipWs (serItems (y :: ys) ++ ']' :: rest))).map _ = _
            rw [hsw2, h2]
            rfl
      · -- object members
        cases kvs with
        | nil => exact absurd rfl hne
        | cons kv kvs' =>
          obtain ⟨k, v⟩ := kv
          have hsk : sizeStr k ≤ f := by
            unfold sizeMembers at hs
            unfold sizeStr
            omega
          have hv : sizeJ v ≤ f := by
            unfold sizeMembers at hs
            omega
          obtain ⟨c, t0, hct, hws, hc1, hc2⟩ := serJson_head v
          cases kvs' with
          | nil =>
            have hform : serMembers [(k, v)] ++ '}' :: rest =
                '"' :: (escStr k ++ '"' :: (':' :: (serJson v ++ '}' :: rest))) := by
              simp [serMembers, List.cons_append, List.append_assoc]
            have h1 : parseVal f (serJson v ++ '}' :: rest) = some (v, '}' :: rest) :=
              (ih f (by omega)).1 v ('}' :: rest) hv (fun _ => rfl)
            have hswv : skipWs (serJson v ++ '}' :: rest) = serJson v ++ '}' :: rest := by
              rw [hct, List.cons_append]
              exact skipWs_cons _ hws
            rw [hform, parseObjItems_quote, parseStrBody_ser k f _ hsk]
            show (match skipWs (':' :: (serJson v ++ '}' :: rest)) with
               | ':' :: r₂ =>
                 (match parseVal f (skipWs r₂) with
                  | none => none
                  | some (v', r₃) =>
                    match skipWs r₃ with
                    | ',' :: r₄ => (parseObjItems f (skipWs r₄)).map
                        (fun (kvs, r) => ((k, v') :: kvs, r))
                    | '}' :: r₄ => some ([(k, v')], r₄)
                    | _ => none)
               | _ => none) = some ([(k, v)], rest)
            rw [skipWs_cons _ (by decide)]
            show (match parseVal f (skipWs (serJson v ++ '}' :: rest)) with
               | none => none
               | some (v', r₃) =>
                 match skipWs r₃ with
                 | ',' :: r₄ => (parseObjItems f (skipWs r₄)).map
                     (fun (kvs, r) => ((k, v') :: kvs, r))
                 | '}' :: r₄ => some ([(k, v')], r₄)
                 | _ => none) = some ([(k, v)], rest)
            rw [hswv, h1]
            rfl
          | cons m2 t2 =>
            have hform : serMembers ((k, v) :: m2 :: t2) ++ '}' :: rest =
                '"' :: (escStr k ++ '"' :: (':' :: (serJson v ++
                  ',' :: (serMembers (m2 :: t2) ++ '}' :: rest)))) := by
              simp [serMembers, List.cons_append, List.append_assoc]
            have h1 : parseVal f (serJson v ++ ',' :: (serMembers (m2 :: t2) ++ '}' :: rest)) =
                some (v, ',' :: (serMembers (m2 :: t2) ++ '}' :: rest)) :=
              (ih f (by omega)).1 v _ hv (fun _ => rfl)
            have hswv : skipWs (serJson v ++ ',' :: (serMembers (m2 :: t2) ++ '}' :: rest)) =
                serJson v ++ ',' :: (serMembers (m2 :: t2) ++ '}' :: rest) := by
              rw [hct, List.cons_append]
              exact skipWs_cons _ hws
            obtain ⟨mk, mv⟩ := m2
            obtain ⟨Y, hY⟩ : ∃ Y, serMembers ((mk, mv) :: t2) ++ '}' :: rest = '"' :: Y := by
              cases t2 with
              | nil =>
                exact ⟨escStr mk ++ '"' :: ':' :: serJson mv ++ '}' :: rest,
                  by simp [serMembers, List.append_assoc]⟩
              | cons z w =>
                exact ⟨escStr mk ++ '"' :: ':' :: serJson mv ++
                    ',' :: (serMembers (z :: w) ++ '}' :: rest),
                  by simp [serMembers, List.append_assoc]⟩
            have hsw3 : skipWs (serMembers ((mk, mv) :: t2) ++ '}' :: rest) =
                serMembers ((mk, mv) :: t2) ++ '}' :: rest := by
              rw [hY]
              exact skipWs_cons _ (by decide)
            have h2 : parseObjItems f (serMembers ((mk, mv) :: t2) ++ '}' :: rest) =
                some ((mk, mv) :: t2, rest) := by
              refine (ih f (by omega)).2.2 ((mk, mv) :: t2) rest (by simp) ?_
              simp only [sizeMembers] at hs ⊢
              omega
            rw [hform, parseObjItems_quote, parseStrBody_ser k f _ hsk]
            show (match skipWs (':' :: (serJson v ++
                ',' :: (serMembers ((mk, mv) :: t2) ++ '}' :: rest))) with
               | ':' :: r₂ =>
                 (match parseVal f (skipWs r₂) with
                  | none => none
                  | some (v', r₃) =>
                    match skipWs r₃ with
                    | ',' :: r₄ => (parseObjItems f (skipWs r₄)).map
                        (fun (kvs, r) => ((k, v') :: kvs, r))
                    | '}' :: r₄ => some ([(k, v')], r₄)
                    | _ => none)
               | _ => none) = some ((k, v) :: (mk, mv) :: t2, rest)
            rw [skipWs_cons _ (by decide)]
            show (match parseVal f (skipWs (serJson v ++
                ',' :: (serMembers ((mk, mv) :: t2) ++ '}' :: rest))) with
               | none => none
               | some (v', r₃) =>
                 match skipWs r₃ with
                 | ',' :: r₄ => (parseObjItems f (skipWs r₄)).map
                     (fun (kvs, r) => ((k, v') :: kvs, r))
                 | '}' :: r₄ => some ([(k, v')], r₄)
                 | _ => none) = some ((k, v) :: (mk, mv) :: t2, rest)
            rw [hswv, h1]
            show (parseObjItems f
                (skipWs (serMembers ((mk, mv) :: t2) ++ '}' :: rest))).map
                (fun (kvs, r) => ((k, v) :: kvs, r)) = some ((k, v) :: (mk, mv) :: t2, rest)
            rw [hsw3, h2]
            rfl

theorem escapeChar_length_pos (c : Char) : 1 ≤ (escapeChar c).length := by
  unfold escapeChar
  split_ifs <;> simp

theorem escStr_length (s : List Char) : s.length ≤ (escStr s).length := by
  induction s with
  | nil => simp [escStr]
  | cons c t ih =>
    have h1 := escapeChar_length_pos c
    have h2 : escStr (c :: t) = escapeChar c ++ escStr t := by simp [escStr]
    rw [h2]
    simp only [List.length_append, List.length_cons, List.length_nil]
    omega

theorem intToDigits_length_pos (m : Int) : 1 ≤ (intToDigits m).length := by
  obtain ⟨c, t, hct, _⟩ := intToDigits_head m
  rw [hct]
  simp

theorem ser_len (n : Nat) :
    (∀ j, sizeJ j ≤ n → sizeJ j ≤ (serJson j).length) ∧
    (∀ xs, xs ≠ [] → sizeItems xs ≤ n → sizeItems xs ≤ (serItems xs).length + 1) ∧
    (∀ kvs, kvs ≠ [] → sizeMembers kvs ≤ n →
      sizeMembers kvs ≤ (serMembers kvs).length + 1) := by
  induction n using Nat.strong_induction_on with
  | _ n ih =>
    obtain rfl | ⟨f, rfl⟩ : n = 0 ∨ ∃ f, n = f + 1 := by
      cases n
      · exact Or.inl rfl
      · exact Or.inr ⟨_, rfl⟩
    · refine ⟨fun j hs => ?_, fun xs hne hs => ?_, fun kvs hne hs => ?_⟩
      · have := sizeJ_pos j; omega
      · have := sizeItems_pos xs; omega
      · have := sizeMembers_pos kvs; omega
    · refine ⟨fun j hs => ?_, fun xs hne hs => ?_, fun kvs hne hs => ?_⟩
      · cases j with
        | null => simp [sizeJ, serJson]
        | bool b => cases b <;> simp [sizeJ, serJson]
        | num m e =>
          have := intToDigits_length_pos m
          simp only [sizeJ, serJson]
          split_ifs <;> simp <;> omega
        | str s =>
          have := escStr_length s
          simp only [sizeJ, serJson]
          simp only [List.length_cons, List.length_append, List.length_singleton]
          omega
        | arr xs =>
          cases xs with
          | nil => simp [sizeJ, serJson, serItems]
          | cons x t =>
            have hq : sizeItems (x :: t) ≤ (serItems (x :: t)).length + 1 := by
              refine ((ih f (by omega)).2.1 (x :: t) (by simp) ?_)
              simp only [sizeJ] at hs
              omega
            simp only [sizeJ, serJson]
            simp only [List.length_cons, List.length_append, List.length_singleton]
            omega
        | obj kvs =>
          cases kvs with
          | nil => simp [sizeJ, serJson, serMembers]
          | cons m t =>
            have hq : sizeMembers (m :: t) ≤ (serMembers (m :: t)).length + 1 := by
              refine ((ih f (by omega)).2.2 (m :: t) (by simp) ?_)
              simp only [sizeJ] at hs
              omega
            simp only [sizeJ, serJson]
            simp only [List.length_cons, List.length_append, List.length_singleton]
            omega
      · cases xs with
        | nil => exact absurd rfl hne
        | cons x t =>
          have hx : sizeJ x ≤ (serJson x).length := by
            refine (ih f (by omega)).1 x ?_
            simp only [sizeItems] at hs
            omega
          cases t with
          | nil =>
            have h1 := sizeJ_pos x
            simp only [sizeItems, serItems]
            omega
          | cons y t' =>
            have ht : sizeItems (y :: t') ≤ (serItems (y :: t')).length + 1 := by
              refine (ih f (by omega)).2.1 (y :: t') (by simp) ?_
              simp only [sizeItems] at hs ⊢
              omega
            have hsize : sizeItems (x :: y :: t') =
                1 + max (sizeJ x) (sizeItems (y :: t')) := rfl
            have hlen : (serItems (x :: y :: t')).length =
                (serJson x).length + 1 + (serItems (y :: t')).length := by
              simp [serItems]
              omega
            rw [hsize, hlen]
            omega
      · cases kvs with
        | nil => exact absurd rfl hne
        | cons m t =>
          obtain ⟨k, v⟩ := m
          have hk := escStr_length k
          have hv : sizeJ v ≤ (serJson v).length := by
            refine (ih f (by omega)).1 v ?_
            simp only [sizeMembers] at hs
            omega
          cases t with
          | nil =>
            have h1 := sizeJ_pos v
            simp only [sizeMembers, serMembers]
            simp only [List.length_cons, List.length_append]
            omega
          | cons m2 t' =>
            have ht : sizeMembers (m2 :: t') ≤ (serMembers (m2 :: t')).length + 1 := by
              refine (ih f (by omega)).2.2 (m2 :: t') (by simp) ?_
              simp only [sizeMembers] at hs ⊢
              omega
            have hsize : sizeMembers ((k, v) :: m2 :: t') =
                1 + max (k.length + 1) (max (sizeJ v) (sizeMembers (m2 :: t'))) := rfl
            have hlen : (serMembers ((k, v) :: m2 :: t')).length =
                (escStr k).length + (serJson v).length +
                  (serMembers (m2 :: t')).length + 4 := by
              simp [serMembers]
              omega
            rw [hsize, hlen]
            simp only [Nat.max_def]
            split_ifs <;> omega

theorem json_loads_serJson (j : Json) : json_loads (serJson j) = some j := by
  obtain ⟨c, t, hct, hws, _, _⟩ := serJson_head j
  unfold json_loads
  have hsw : skipWs (serJson j) = serJson j := by
    rw [hct]
    exact skipWs_cons _ hws
  have hlen : sizeJ j ≤ (serJson j).length + 1 := by
    have := (ser_len (sizeJ j)).1 j le_rfl
    omega
  have hp : parseVal ((serJson j).length + 1) (serJson j ++ []) = some (j, []) :=
    (parse_ser _).1 j [] hlen (fun _ => rfl)
  rw [List.append_nil] at hp
  rw [hsw, hp]
  rfl

/-! ### Replacement and search lemmas -/

theorem isPrefixOf_self_append : ∀ l b : List Char, l.isPrefixOf (l ++ b) = true := by
  intro l b
  induction l with
  | nil => simp [List.isPrefixOf]
  | cons c t ih => simp [List.isPrefixOf, ih]

theorem isPrefixOf_cons_ne {p0 c : Char} (pr X : List Char) (h : p0 ≠ c) :
    (p0 :: pr).isPrefixOf (c :: X) = false := by
  simp [List.isPrefixOf, h]

theorem pyReplaceGo_skip_clean {pat repl : List Char} {p0 : Char} {pr : List Char}
    (hp : pat = p0 :: pr) {a : List Char} (ha : p0 ∉ a) (b : List Char) :
    pyReplaceGo pat repl (a ++ b) 0 = a ++ pyReplaceGo pat repl b 0 := by
  induction a with
  | nil => simp
  | cons c t ih =>
    have hc : p0 ≠ c := fun h => ha (by simp [h])
    have hpre : pat.isPrefixOf (c :: (t ++ b)) = false := by
      rw [hp]
      exact isPrefixOf_cons_ne pr (t ++ b) hc
    have hcond : ¬(pat ≠ [] ∧ pat.isPrefixOf (c :: (t ++ b)) = true) := by
      intro hcon
      rw [hpre] at hcon
      exact Bool.false_ne_true hcon.2
    show pyReplaceGo pat repl (c :: (t ++ b)) 0 = _
    simp only [pyReplaceGo]
    rw [if_neg hcond]
    rw [ih (fun hm => ha (by simp [hm]))]
    rfl

theorem pyReplaceGo_skip_count {pat repl : List Char} :
    ∀ a b : List Char, pyReplaceGo pat repl (a ++ b) a.length = pyReplaceGo pat repl b 0 := by
  intro a
  induction a with
  | nil => intro b; rfl
  | cons c t ih => intro b; exact ih b

theorem pyReplaceGo_match {pat repl : List Char} {p0 : Char} {pr : List Char}
    (hp : pat = p0 :: pr) (b : List Char) :
    pyReplaceGo pat repl (pat ++ b) 0 = repl ++ pyReplaceGo pat repl b 0 := by
  have hne : pat ≠ [] := by rw [hp]; simp
  have hpre : pat.isPrefixOf (pat ++ b) = true := isPrefixOf_self_append pat b
  have hx : pat ++ b = p0 :: (pr ++ b) := by rw [hp]; rfl
  rw [hx]
  show pyReplaceGo pat repl (p0 :: (pr ++ b)) 0 = _
  simp only [pyReplaceGo]
  rw [if_pos ⟨hne, by rw [← hx]; exact hpre⟩]
  have hlen : pat.length - 1 = pr.length := by rw [hp]; simp
  rw [hlen, pyReplaceGo_skip_count pr b]

theorem pyReplace_id {pat repl : List Char} {p0 : Char} {pr : List Char}
    (hp : pat = p0 :: pr) {l : List Char} (h : p0 ∉ l) : pyReplace pat repl l = l := by
  unfold pyReplace
  have h2 : pyReplaceGo pat repl (l ++ []) 0 = l ++ pyReplaceGo pat repl [] 0 :=
    pyReplaceGo_skip_clean hp h []
  rw [List.append_nil] at h2
  rw [h2]
  simp [pyReplaceGo]

theorem findFirst_eq_none {c : Char} {l : List Char} : findFirst c l = none ↔ c ∉ l := by
  induction l with
  | nil => simp [findFirst]
  | cons x t ih =>
    by_cases hx : x = c
    · subst hx
      simp [findFirst]
    · have hcx : ¬c = x := fun h => hx h.symm
      simp [findFirst, hx, ih, hcx]

theorem findFirst_append_notin {c : Char} {A : List Char} (h : c ∉ A) (s : List Char) :
    findFirst c (A ++ c :: s) = some A.length := by
  induction A with
  | nil => simp [findFirst]
  | cons x t ih =>
    have hx : ¬(x = c) := fun he => h (by simp [he])
    have ht : c ∉ t := fun hm => h (by simp [hm])
    simp [findFirst, hx, ih ht]

theorem findLast_append_notin {B : List Char} (h : '}' ∉ B) (D : List Char) :
    findLast '}' (D ++ '}' :: B) = some D.length := by
  unfold findLast
  have hrev : (D ++ '}' :: B).reverse = B.reverse ++ '}' :: D.reverse := by
    rw [List.reverse_append]
    simp
  have hmem : '}' ∉ B.reverse := fun hm => h (by simpa using hm)
  rw [hrev, findFirst_append_notin hmem D.reverse]
  show some ((D ++ '}' :: B).length - 1 - B.reverse.length) = some D.length
  congr 1
  simp only [List.length_append, List.length_cons, List.length_reverse]
  omega

theorem findFirst_drop {c : Char} :
    ∀ {l : List Char} {i : Nat}, findFirst c l = some i → ∃ s, l.drop i = c :: s := by
  intro l
  induction l with
  | nil => intro i h; simp [findFirst] at h
  | cons x t ih =>
    intro i h
    by_cases hx : x = c
    · subst hx
      simp [findFirst] at h
      subst h
      exact ⟨t, rfl⟩
    · simp [findFirst, hx] at h
      obtain ⟨i', hi', rfl⟩ := h
      exact ih hi'

/-! ### Shape of extracted values and extraction failure -/

theorem findLast_some_mem {t : List Char} {i : Nat} (h : findLast '}' t = some i) :
    '}' ∈ t := by
  by_contra hn
  have hnone : findFirst '}' t.reverse = none :=
    findFirst_eq_none.mpr (fun hm => hn (List.mem_reverse.mp hm))
  rw [findLast, hnone] at h
  exact Option.noConfusion h

theorem parseVal_shape_obj {f : Nat} {t : List Char} {j : Json} {r : List Char}
    (h : parseVal f ('{' :: t) = some (j, r)) : ∃ kvs, j = Json.obj kvs := by
  cases f with
  | zero => exact absurd h (by simp [parseVal])
  | succ f =>
    rw [parseVal_obj] at h
    split at h
    · injection h with h1
      injection h1 with h2 h3
      exact ⟨[], h2.symm⟩
    · cases hpo : parseObjItems f (skipWs t) with
      | none => rw [hpo] at h; simp at h
      | some p =>
        obtain ⟨kvs, r'⟩ := p
        rw [hpo] at h
        simp at h
        exact ⟨kvs, h.1.symm⟩

theorem json_loads_obj_shape {l : List Char} {j : Json}
    (hhead : ∃ t, l = '{' :: t) (h : json_loads l = some j) :
    ∃ kvs, j = Json.obj kvs := by
  obtain ⟨t, rfl⟩ := hhead
  unfold json_loads at h
  rw [show skipWs ('{' :: t) = '{' :: t from skipWs_cons t (by decide)] at h
  cases hp : parseVal (('{' :: t).length + 1) ('{' :: t) with
  | none => rw [hp] at h; simp at h
  | some p =>
    obtain ⟨j', r⟩ := p
    rw [hp] at h
    obtain ⟨kvs, rfl⟩ := parseVal_shape_obj hp
    by_cases hr : skipWs r = []
    · simp [hr] at h
      exact ⟨kvs, h.symm⟩
    · simp [hr] at h

/-- C3: for every input that after stripping and fence removal has no `{`
or no `}`, and for every input whose first-`{`-to-last-`}` slice fails to
decode, `safe_json_parse` returns `none`; the Python `except` catches the
`ValueError`/decode error, so no exception escapes to the caller (failure
is modelled by the total function returning `none`). -/
theorem safe_json_parse_failure (raw : List Char)
    (h : '{' ∉ cleanText raw ∨ '}' ∉ cleanText raw ∨
        ∀ first last, findFirst '{' (cleanText raw) = some first →
          findLast '}' (cleanText raw) = some last →
          json_loads (((cleanText raw).drop first).take (last + 1 - first)) = none) :
    safe_json_parse raw = none := by
  cases hf : findFirst '{' (cleanText raw) with
  | none => simp [safe_json_parse, hf]
  | some first =>
    cases hl : findLast '}' (cleanText raw) with
    | none => simp [safe_json_parse, hf, hl]
    | some last =>
      have hmem1 : '{' ∈ cleanText raw := by
        by_contra hn
        rw [findFirst_eq_none.mpr hn] at hf
        exact Option.noConfusion hf
      have hmem2 : '}' ∈ cleanText raw := findLast_some_mem hl
      rcases h with h1 | h2 | h3
      · exact absurd hmem1 h1
      · exact absurd hmem2 h2
      · simp [safe_json_parse, hf, hl, h3 first last hf hl]

theorem safe_json_parse_failure_witness :
    '{' ∉ cleanText ("I cannot compute this.".data) ∧
      safe_json_parse ("I cannot compute this.".data) = none :=
  ⟨by decide, safe_json_parse_failure _ (Or.inl (by decide))⟩

/-- C9: `safe_json_parse` returns `none` or a JSON object (`Json.obj`),
never a bare array, string, number, boolean, or null, because the decoded
slice always begins with the first `{`. -/
theorem safe_json_parse_shape (raw : List Char) :
    safe_json_parse raw = none ∨ ∃ kvs, safe_json_parse raw = some (Json.obj kvs) := by
  cases hf : findFirst '{' (cleanText raw) with
  | none => exact Or.inl (by simp [safe_json_parse, hf])
  | some first =>
    cases hl : findLast '}' (cleanText raw) with
    | none => exact Or.inl (by simp [safe_json_parse, hf, hl])
    | some last =>
      have heq : safe_json_parse raw =
          json_loads (((cleanText raw).drop first).take (last + 1 - first)) := by
        simp [safe_json_parse, hf, hl]
      obtain ⟨s, hs⟩ := findFirst_drop hf
      cases hn : last + 1 - first with
      | zero =>
        left
        rw [heq, hn]
        rfl
      | succ n =>
        rw [heq, hn, hs]
        cases hjl : json_loads (('{' :: s).take (n + 1)) with
        | none => exact Or.inl rfl
        | some j =>
          obtain ⟨kvs, rfl⟩ := json_loads_obj_shape ⟨s.take n, rfl⟩ hjl
          exact Or.inr ⟨kvs, rfl⟩

/-! ### Embedding lemmas for the round-trip analysis -/

theorem mem_lstrip {c : Char} {l : List Char} (h : c ∈ lstrip l) : c ∈ l :=
  (List.dropWhile_sublist pyws).subset h

theorem mem_rstrip {c : Char} {l : List Char} (h : c ∈ rstrip l) : c ∈ l := by
  unfold rstrip at h
  rw [List.mem_reverse] at h
  exact List.mem_reverse.mp ((List.dropWhile_sublist pyws).subset h)

theorem isPrefixOf_false_of_not_mem {c : Char} (pr : List Char) {q : List Char}
    (h : c ∉ q) : (c :: pr).isPrefixOf q = false := by
  cases q with
  | nil => rfl
  | cons x t => exact isPrefixOf_cons_ne pr t (fun he => h (by simp [he]))

theorem pyReplaceGo_step_nomatch {pat repl : List Char} {c : Char} {t : List Char}
    (h : pat.isPrefixOf (c :: t) = false) :
    pyReplaceGo pat repl (c :: t) 0 = c :: pyReplaceGo pat repl t 0 := by
  simp only [pyReplaceGo]
  rw [if_neg]
  intro hcon
  rw [h] at hcon
  exact Bool.false_ne_true hcon.2

theorem pyReplaceGo_id {pat repl : List Char} {p0 : Char} {pr : List Char}
    (hp : pat = p0 :: pr) {l : List Char} (h : p0 ∉ l) :
    pyReplaceGo pat repl l 0 = l :=
  pyReplace_id hp h

theorem pystrip_embed (p₁ p₂ mid : List Char) {c₀ c₁ : Char}
    (h₀ : pyws c₀ = false) (h₁ : pyws c₁ = false) :
    pystrip (p₁ ++ (c₀ :: mid ++ [c₁]) ++ p₂) =
      lstrip p₁ ++ (c₀ :: mid ++ [c₁]) ++ rstrip p₂ := by
  have e1 : p₁ ++ (c₀ :: mid ++ [c₁]) ++ p₂ = p₁ ++ c₀ :: ((mid ++ [c₁]) ++ p₂) := by simp
  have e2 : lstrip p₁ ++ c₀ :: ((mid ++ [c₁]) ++ p₂)
      = ((lstrip p₁ ++ c₀ :: mid) ++ [c₁]) ++ p₂ := by simp
  unfold pystrip
  rw [e1, lstrip_append_stop p₁ _ h₀, e2, rstrip_append_keep _ _ h₁]
  simp

theorem extract_of_clean (raw : List Char) (kvs : List (List Char × Json)) (A B : List Char)
    (hA : '{' ∉ A) (hB : '}' ∉ B)
    (h : cleanText raw = A ++ serJson (Json.obj kvs) ++ B) :
    safe_json_parse raw = some (Json.obj kvs) := by
  have hserdef : serJson (Json.obj kvs) = '{' :: serMembers kvs ++ ['}'] := rfl
  have hshape1 : cleanText raw = A ++ '{' :: (serMembers kvs ++ '}' :: B) := by
    rw [h, hserdef]
    simp
  have hshape2 : cleanText raw = (A ++ '{' :: serMembers kvs) ++ '}' :: B := by
    rw [h, hserdef]
    simp
  have hf : findFirst '{' (cleanText raw) = some A.length := by
    rw [hshape1]
    exact findFirst_append_notin hA _
  have hl : findLast '}' (cleanText raw) = some (A ++ '{' :: serMembers kvs).length := by
    rw [hshape2]
    exact findLast_append_notin hB _
  have hn : (A ++ '{' :: serMembers kvs).length + 1 - A.length
      = (serJson (Json.obj kvs)).length := by
    rw [hserdef]
    simp only [List.length_append, List.length_cons, List.length_nil]
    omega
  have hslice : ((cleanText raw).drop A.length).take
      ((A ++ '{' :: serMembers kvs).length + 1 - A.length) = serJson (Json.obj kvs) := by
    rw [h, hn, List.append_assoc, List.drop_left]
    exact List.take_left' rfl
  have hsj : safe_json_parse raw = json_loads (((cleanText raw).drop A.length).take
      ((A ++ '{' :: serMembers kvs).length + 1 - A.length)) := by
    simp [safe_json_parse, hf, hl]
  rw [hsj, hslice, json_loads_serJson]

theorem roundtrip_unfenced (p₁ p₂ : List Char) (kvs : List (List Char × Json))
    (hser : '`' ∉ serJson (Json.obj kvs))
    (h₁ : ∀ c ∈ p₁, c ≠ '{' ∧ c ≠ '}' ∧ c ≠ '`')
    (h₂ : ∀ c ∈ p₂, c ≠ '{' ∧ c ≠ '}' ∧ c ≠ '`') :
    safe_json_parse (p₁ ++ serJson (Json.obj kvs) ++ p₂) = some (Json.obj kvs) := by
  have hserdef : serJson (Json.obj kvs) = '{' :: serMembers kvs ++ ['}'] := rfl
  have hstrip : pystrip (p₁ ++ serJson (Json.obj kvs) ++ p₂)
      = lstrip p₁ ++ serJson (Json.obj kvs) ++ rstrip p₂ := by
    rw [hserdef]
    exact pystrip_embed p₁ p₂ (serMembers kvs) (by decide) (by decide)
  have hq₁ : ∀ c ∈ lstrip p₁, c ≠ '{' ∧ c ≠ '}' ∧ c ≠ '`' :=
    fun c hc => h₁ c (mem_lstrip hc)
  have hq₂ : ∀ c ∈ rstrip p₂, c ≠ '{' ∧ c ≠ '}' ∧ c ≠ '`' :=
    fun c hc => h₂ c (mem_rstrip hc)
  have hnb : '`' ∉ lstrip p₁ ++ serJson (Json.obj kvs) ++ rstrip p₂ := by
    intro hm
    rcases List.mem_append.mp hm with hm' | hm₂
    · rcases List.mem_append.mp hm' with hm₁ | hms
      · exact (hq₁ _ hm₁).2.2 rfl
      · exact hser hms
    · exact (hq₂ _ hm₂).2.2 rfl
  have hclean : cleanText (p₁ ++ serJson (Json.obj kvs) ++ p₂)
      = lstrip p₁ ++ serJson (Json.obj kvs) ++ rstrip p₂ := by
    unfold cleanText
    rw [hstrip, pyReplace_id (show "```json".data = '`' :: "``json".data from rfl) hnb,
      pyReplace_id (show "```".data = '`' :: "``".data from rfl) hnb]
  exact extract_of_clean _ kvs (lstrip p₁) (rstrip p₂)
    (fun hm => (hq₁ _ hm).1 rfl) (fun hm => (hq₂ _ hm).2.1 rfl) hclean

theorem isPrefixOf_exists {l q : List Char} (h : l.isPrefixOf q = true) : ∃ t, q = l ++ t := by
  have h' : l <+: q := by simpa using h
  obtain ⟨t, ht⟩ := h'
  exact ⟨t, ht.symm⟩

theorem fenceTail_json_matched {q₃ : List Char} (hq : '`' ∉ q₃) :
    pyReplaceGo "```json".data [] ("```".data ++ ("json".data ++ q₃)) 0 = q₃ := by
  have e0 : "```".data ++ "json".data = "```json".data := rfl
  have e : "```".data ++ ("json".data ++ q₃) = "```json".data ++ q₃ := by
    rw [← List.append_assoc, e0]
  rw [e, pyReplaceGo_match (show "```json".data = '`' :: "``json".data from rfl) q₃,
    pyReplaceGo_id (show "```json".data = '`' :: "``json".data from rfl) hq]
  simp

theorem fenceTail_json_unmatched {q₂ : List Char} (hq : '`' ∉ q₂)
    (hnp : ("json".data).isPrefixOf q₂ = false) :
    pyReplaceGo "```json".data [] ("```".data ++ q₂) 0 = "```".data ++ q₂ := by
  have hpat : "```json".data = '`' :: '`' :: '`' :: "json".data := rfl
  have e : "```".data ++ q₂ = '`' :: '`' :: '`' :: q₂ := rfl
  have h0 : ("```json".data).isPrefixOf ('`' :: '`' :: '`' :: q₂) = false := by
    rw [hpat]
    simp [List.isPrefixOf]
    exact hnp
  have h1 : ("```json".data).isPrefixOf ('`' :: '`' :: q₂) = false := by
    rw [hpat]
    simp [List.isPrefixOf]
    exact isPrefixOf_false_of_not_mem _ hq
  have h2 : ("```json".data).isPrefixOf ('`' :: q₂) = false := by
    rw [hpat]
    simp [List.isPrefixOf]
    exact isPrefixOf_false_of_not_mem _ hq
  rw [e, pyReplaceGo_step_nomatch h0, pyReplaceGo_step_nomatch h1, pyReplaceGo_step_nomatch h2,
    pyReplaceGo_id (show "```json".data = '`' :: "``json".data from rfl) hq]

theorem fence_tail_eq {q₂ : List Char} (hq : '`' ∉ q₂) :
    ∃ q, (∀ c, c ∈ q → c ∈ q₂) ∧
      (pyReplaceGo "```json".data [] ("```".data ++ q₂) 0 = "```".data ++ q ∨
       pyReplaceGo "```json".data [] ("```".data ++ q₂) 0 = q) := by
  cases hjp : ("json".data).isPrefixOf q₂ with
  | false => exact ⟨q₂, fun c h => h, Or.inl (fenceTail_json_unmatched hq hjp)⟩
  | true =>
    obtain ⟨q₃, rfl⟩ := isPrefixOf_exists hjp
    refine ⟨q₃, fun c h => by simp [h], Or.inr ?_⟩
    exact fenceTail_json_matched (fun hm => hq (by simp [hm]))

theorem stage2_eq (q₁ q₂ ser : List Char) (h₁ : '`' ∉ q₁) (hser : '`' ∉ ser) :
    pyReplace "```json".data []
        (q₁ ++ ('`' :: ("``json\n".data ++ ser ++ "\n``".data) ++ ['`']) ++ q₂)
      = q₁ ++ ('\n' :: ser ++ ['\n']) ++ pyReplaceGo "```json".data [] ("```".data ++ q₂) 0 := by
  unfold pyReplace
  have d1 : "``json\n".data = '`' :: '`' :: 'j' :: 's' :: 'o' :: 'n' :: '\n' :: [] := rfl
  have d2 : "\n``".data = '\n' :: '`' :: '`' :: [] := rfl
  have d3 : "```json".data = '`' :: '`' :: '`' :: 'j' :: 's' :: 'o' :: 'n' :: [] := rfl
  have d4 : "```".data = '`' :: '`' :: '`' :: [] := rfl
  have hM : '`' ∉ ('\n' :: ser ++ ['\n']) := by
    intro hm
    rcases List.mem_cons.mp hm with h | hm2
    · exact absurd h (by decide)
    · rcases List.mem_append.mp hm2 with h | h
      · exact hser h
      · exact absurd h (by decide)
  have e1 : q₁ ++ ('`' :: ("``json\n".data ++ ser ++ "\n``".data) ++ ['`']) ++ q₂
      = q₁ ++ ("```json".data ++ (('\n' :: ser ++ ['\n']) ++ ("```".data ++ q₂))) := by
    rw [d1, d2, d3, d4]
    simp
  rw [e1, pyReplaceGo_skip_clean (show "```json".data = '`' :: "``json".data from rfl) h₁ _,
    pyReplaceGo_match (show "```json".data = '`' :: "``json".data from rfl) _,
    pyReplaceGo_skip_clean (show "```json".data = '`' :: "``json".data from rfl) hM _]
  simp

theorem stage3_eq (A q : List Char) (hA : '`' ∉ A) (hq : '`' ∉ q) :
    pyReplace "```".data [] (A ++ ("```".data ++ q)) = A ++ q := by
  unfold pyReplace
  rw [pyReplaceGo_skip_clean (show "```".data = '`' :: "``".data from rfl) hA _,
    pyReplaceGo_match (show "```".data = '`' :: "``".data from rfl) q,
    pyReplaceGo_id (show "```".data = '`' :: "``".data from rfl) hq]
  simp

theorem roundtrip_fenced (p₁ p₂ : List Char) (kvs : List (List Char × Json))
    (hser : '`' ∉ serJson (Json.obj kvs))
    (h₁ : ∀ c ∈ p₁, c ≠ '{' ∧ c ≠ '}' ∧ c ≠ '`')
    (h₂ : ∀ c ∈ p₂, c ≠ '{' ∧ c ≠ '}' ∧ c ≠ '`') :
    safe_json_parse (p₁ ++ "```json\n".data ++ serJson (Json.obj kvs) ++ "\n```".data ++ p₂)
      = some (Json.obj kvs) := by
  have hq₁ : ∀ c ∈ lstrip p₁, c ≠ '{' ∧ c ≠ '}' ∧ c ≠ '`' :=
    fun c hc => h₁ c (mem_lstrip hc)
  have hq₂ : ∀ c ∈ rstrip p₂, c ≠ '{' ∧ c ≠ '}' ∧ c ≠ '`' :=
    fun c hc => h₂ c (mem_rstrip hc)
  have hq₁b : '`' ∉ lstrip p₁ := fun hm => (hq₁ _ hm).2.2 rfl
  have hq₂b : '`' ∉ rstrip p₂ := fun hm => (hq₂ _ hm).2.2 rfl
  have hraw : p₁ ++ "```json\n".data ++ serJson (Json.obj kvs) ++ "\n```".data ++ p₂
      = p₁ ++ ('`' :: ("``json\n".data ++ serJson (Json.obj kvs) ++ "\n``".data) ++ ['`']) ++ p₂ := by
    rw [show "```json\n".data = '`' :: "``json\n".data from rfl,
      show "\n```".data = "\n``".data ++ ['`'] from rfl]
    simp
  have hstrip : pystrip (p₁ ++ "```json\n".data ++ serJson (Json.obj kvs) ++ "\n```".data ++ p₂)
      = lstrip p₁ ++ ('`' :: ("``json\n".data ++ serJson (Json.obj kvs) ++ "\n``".data) ++ ['`'])
          ++ rstrip p₂ := by
    rw [hraw]
    exact pystrip_embed p₁ p₂ _ (by decide) (by decide)
  obtain ⟨q, hqsub, hcase⟩ := fence_tail_eq hq₂b
  have hqnb : ∀ c ∈ q, c ≠ '{' ∧ c ≠ '}' ∧ c ≠ '`' := fun c hc => hq₂ c (hqsub c hc)
  have hAnb : '`' ∉ lstrip p₁ ++ ('\n' :: serJson (Json.obj kvs) ++ ['\n']) := by
    intro hm
    rcases List.mem_append.mp hm with h | hm2
    · exact hq₁b h
    · rcases List.mem_cons.mp hm2 with h | hm3
      · exact absurd h (by decide)
      · rcases List.mem_append.mp hm3 with h | h
        · exact hser h
        · exact absurd h (by decide)
  have hclean : cleanText (p₁ ++ "```json\n".data ++ serJson (Json.obj kvs) ++ "\n```".data ++ p₂)
      = (lstrip p₁ ++ ['\n']) ++ serJson (Json.obj kvs) ++ '\n' :: q := by
    unfold cleanText
    rw [hstrip, stage2_eq _ _ _ hq₁b hser]
    rcases hcase with hR | hR
    · rw [hR, stage3_eq _ _ hAnb (fun hm => (hqnb _ hm).2.2 rfl)]
      simp
    · rw [hR]
      have hallnb : '`' ∉ lstrip p₁ ++ ('\n' :: serJson (Json.obj kvs) ++ ['\n']) ++ q := by
        intro hm
        rcases List.mem_append.mp hm with h | h
        · exact hAnb h
        · exact (hqnb _ h).2.2 rfl
      rw [pyReplace_id (show "```".data = '`' :: "``".data from rfl) hallnb]
      simp
  exact extract_of_clean _ kvs (lstrip p₁ ++ ['\n']) ('\n' :: q)
    (by
      intro hm
      rcases List.mem_append.mp hm with h | h
      · exact (hq₁ _ h).1 rfl
      · exact absurd h (by decide))
    (by
      intro hm
      rcases List.mem_cons.mp hm with h | h
      · exact absurd h (by decide)
      · exact (hqnb _ h).2.1 rfl)
    hclean

/-- C1 (counterexample): the unrestricted extraction round-trip fails.
With the one-character prose prefix `"{"` and empty trailing prose, the
embedding of the serialized empty object `{}` is the text `{{}`; the
slice from the first `{` to the last `}` is `{{}`, which is not valid
JSON, so `safe_json_parse` returns `none` instead of recovering the
object. -/
theorem roundtrip_counterexample :
    serJson (Json.obj []) = "{}".data ∧
    safe_json_parse ("\x7b".data ++ serJson (Json.obj []) ++ []) = none ∧
    safe_json_parse ("\x7b".data ++ serJson (Json.obj []) ++ []) ≠ some (Json.obj []) := by
  refine ⟨rfl, rfl, ?_⟩
  intro h
  exact Option.noConfusion ((show safe_json_parse ("\x7b".data ++ serJson (Json.obj []) ++ [])
    = none from rfl).symm.trans h)

/-- C1 (amended): extraction round-trip for embedded objects, restricted
to benign surroundings.  For every JSON object whose serialization
contains no backtick, and all surrounding prose `p₁`, `p₂` containing no
`{`, `}`, or backtick characters, `safe_json_parse` recovers exactly the
object — both from the bare embedding `p₁ ++ ser ++ p₂` and from the
markdown-fenced embedding with `"```json\n"` before and `"\n```"` after
the object. -/
theorem extraction_roundtrip_amended (kvs : List (List Char × Json))
    (p₁ p₂ : List Char) (fenced : Bool)
    (hser : '`' ∉ serJson (Json.obj kvs))
    (h₁ : ∀ c ∈ p₁, c ≠ '{' ∧ c ≠ '}' ∧ c ≠ '`')
    (h₂ : ∀ c ∈ p₂, c ≠ '{' ∧ c ≠ '}' ∧ c ≠ '`') :
    safe_json_parse (p₁ ++ (if fenced then "```json\n".data else [])
        ++ serJson (Json.obj kvs) ++ (if fenced then "\n```".data else []) ++ p₂)
      = some (Json.obj kvs) := by
  cases fenced with
  | false => simpa using roundtrip_unfenced p₁ p₂ kvs hser h₁ h₂
  | true => simpa using roundtrip_fenced p₁ p₂ kvs hser h₁ h₂

theorem extraction_roundtrip_amended_witness :
    ('`' ∉ serJson (Json.obj [("a".data, Json.num 1 0)])) ∧
    safe_json_parse ("Sure! ".data ++ (if true then "```json\n".data else [])
        ++ serJson (Json.obj [("a".data, Json.num 1 0)])
        ++ (if true then "\n```".data else []) ++ " ok".data)
      = some (Json.obj [("a".data, Json.num 1 0)]) :=
  ⟨by decide, extraction_roundtrip_amended [("a".data, Json.num 1 0)]
    "Sure! ".data " ok".data true (by decide) (by decide) (by decide)⟩
